import Mathlib

/-!
The state-diffing engine of miniflux-sync, the construction of its two states, and the dump.

A shallow embedding of the package `diff` (`feed.go`, `state.go`, `diff.go`), of the
package `parse` (`parse.go`), of `api/state.go` and of the dump shaping of `cmd/dump.go` of
miniflux-sync, and theorems about them.

Modelling conventions.

* A Go pointer to a primitive (`*bool`, `*string`) is an `Option`; `nil` is `none`.
* A Go `map[string]V` is a `GoMap V`: the list of its entries in the order one
  `range` enumerates them, together with the proof that its keys are distinct.
  Every statement quantifies over all such lists, hence over every enumeration order.
* A Go slice is a `List`.
-/

namespace Miniflux

/-! ## feed.go -/

/-- The configurable options of a feed (`FeedOptions` of `feed.go`); every field is a
pointer in the source, so that "not set" differs from "set to the zero value". -/
structure FeedOptions where
  Crawler : Option Bool := none
  Username : Option String := none
  Password : Option String := none
  UserAgent : Option String := none
  Cookie : Option String := none
  Disabled : Option Bool := none
  IgnoreHTTPCache : Option Bool := none
  FetchViaProxy : Option Bool := none
  AllowSelfSignedCertificates : Option Bool := none
  DisableHTTP2 : Option Bool := none
  ScraperRules : Option String := none
  RewriteRules : Option String := none
  BlocklistRules : Option String := none
  KeeplistRules : Option String := none
  HideGlobally : Option Bool := none
  deriving DecidableEq, Repr

/-- A feed: its URL and its options (`Feed` of `feed.go`). -/
structure Feed where
  URL : String
  Options : FeedOptions := {}
  deriving DecidableEq, Repr

/-- The function `boolPtrEqual` of `feed.go`. -/
def boolPtrEqual (a b : Option Bool) : Bool :=
  match a, b with
  | none, none => true
  | none, some _ => false
  | some _, none => false
  | some x, some y => x == y

/-- The function `stringPtrEqual` of `feed.go`. -/
def stringPtrEqual (a b : Option String) : Bool :=
  match a, b with
  | none, none => true
  | none, some _ => false
  | some _, none => false
  | some x, some y => x == y

/-- The method `FeedOptions.IsEmpty` of `feed.go`: no option is set. -/
def FeedOptions.IsEmpty (o : FeedOptions) : Bool :=
  o.Crawler == none &&
  o.Username == none &&
  o.Password == none &&
  o.UserAgent == none &&
  o.Cookie == none &&
  o.Disabled == none &&
  o.IgnoreHTTPCache == none &&
  o.FetchViaProxy == none &&
  o.AllowSelfSignedCertificates == none &&
  o.DisableHTTP2 == none &&
  o.ScraperRules == none &&
  o.RewriteRules == none &&
  o.BlocklistRules == none &&
  o.KeeplistRules == none &&
  o.HideGlobally == none

/-- The method `FeedOptions.Equal` of `feed.go`: the chain of fifteen guarded early
returns, one per field, in the order of the source. -/
def FeedOptions.Equal (o other : FeedOptions) : Bool :=
  if o.Crawler != none && !boolPtrEqual o.Crawler other.Crawler then false
  else if o.Username != none && !stringPtrEqual o.Username other.Username then false
  else if o.Password != none && !stringPtrEqual o.Password other.Password then false
  else if o.UserAgent != none && !stringPtrEqual o.UserAgent other.UserAgent then false
  else if o.Cookie != none && !stringPtrEqual o.Cookie other.Cookie then false
  else if o.Disabled != none && !boolPtrEqual o.Disabled other.Disabled then false
  else if o.IgnoreHTTPCache != none &&
      !boolPtrEqual o.IgnoreHTTPCache other.IgnoreHTTPCache then false
  else if o.FetchViaProxy != none &&
      !boolPtrEqual o.FetchViaProxy other.FetchViaProxy then false
  else if o.AllowSelfSignedCertificates != none &&
      !boolPtrEqual o.AllowSelfSignedCertificates other.AllowSelfSignedCertificates then false
  else if o.DisableHTTP2 != none && !boolPtrEqual o.DisableHTTP2 other.DisableHTTP2 then false
  else if o.ScraperRules != none &&
      !stringPtrEqual o.ScraperRules other.ScraperRules then false
  else if o.RewriteRules != none &&
      !stringPtrEqual o.RewriteRules other.RewriteRules then false
  else if o.BlocklistRules != none &&
      !stringPtrEqual o.BlocklistRules other.BlocklistRules then false
  else if o.KeeplistRules != none &&
      !stringPtrEqual o.KeeplistRules other.KeeplistRules then false
  else if o.HideGlobally != none && !boolPtrEqual o.HideGlobally other.HideGlobally then false
  else true

/-- The function `needsUpdate` of `diff.go`. -/
def needsUpdate (loc remote : FeedOptions) : Bool :=
  if loc.IsEmpty then false
  else !loc.Equal remote

/-! ## state.go -/

/-- A Go `map[string]V`: its entries in the order a `range` enumerates them; the keys of a
map are distinct. -/
structure GoMap (V : Type) where
  entries : List (String × V)
  nodup : (entries.map Prod.fst).Nodup

/-- The map index expression `v, exists := m[k]`; `none` when the key is absent. -/
def GoMap.get? {V : Type} (m : GoMap V) (k : String) : Option V :=
  m.entries.lookup k

/-- The builtin `len(m)`. -/
def GoMap.len {V : Type} (m : GoMap V) : Nat :=
  m.entries.length

/-- The type `State` of `state.go`: the remote state of Miniflux, or the intended local
state. -/
structure State where
  FeedURLsByCategoryTitle : GoMap (List String)
  FeedsByCategoryTitle : GoMap (List Feed)

/-- The method `State.CategoryExists` of `state.go`. -/
def State.CategoryExists (s : State) (categoryTitle : String) : Bool :=
  match s.FeedURLsByCategoryTitle.get? categoryTitle with
  | some _ => true
  | none => false

/-- The method `State.FeedExists` of `state.go`. -/
def State.FeedExists (s : State) (feedURL : String) (categoryTitle : String) : Bool :=
  match s.FeedURLsByCategoryTitle.get? categoryTitle with
  | none => false
  | some feedURLs => feedURLs.contains feedURL

/-- The inner loop of `State.GetFeedOptions`: the options of the first feed of the slice
whose URL is `feedURL`. -/
def findFeedOptions (feedURL : String) : List Feed → Option FeedOptions
  | [] => none
  | feed :: rest =>
    if feed.URL == feedURL then some feed.Options else findFeedOptions feedURL rest

/-- The outer loop of `State.GetFeedOptions`, over the entries of `FeedsByCategoryTitle`. -/
def findFeedOptionsInCategories (feedURL : String) :
    List (String × List Feed) → Option FeedOptions
  | [] => none
  | e :: rest =>
    match findFeedOptions feedURL e.2 with
    | some o => some o
    | none => findFeedOptionsInCategories feedURL rest

/-- The method `State.GetFeedOptions` of `state.go`: the options of the first feed found
with this URL, or the empty options. -/
def State.GetFeedOptions (s : State) (feedURL : String) : FeedOptions :=
  match findFeedOptionsInCategories feedURL s.FeedsByCategoryTitle.entries with
  | some o => o
  | none => {}

/-- The fallback loop of `State.GetFeedsByCategory`: every URL becomes a feed without
options. -/
def feedsOfURLs (entries : List (String × List String)) : List (String × List Feed) :=
  entries.map fun e => (e.1, e.2.map fun url => ({ URL := url } : Feed))

/-- The method `State.GetFeedsByCategory` of `state.go`: `FeedsByCategoryTitle` when it has
an entry, and otherwise the feeds rebuilt from `FeedURLsByCategoryTitle`. -/
def State.GetFeedsByCategory (s : State) : GoMap (List Feed) :=
  if s.FeedsByCategoryTitle.len > 0 then s.FeedsByCategoryTitle
  else
    { entries := feedsOfURLs s.FeedURLsByCategoryTitle.entries
      nodup := by
        simpa [feedsOfURLs, Function.comp_def] using s.FeedURLsByCategoryTitle.nodup }

/-! ## The actions -/

/-- The action types that `diff.go` and `update.go` name. -/
inductive ActionType where
  | CreateCategory
  | CreateFeed
  | UpdateFeed
  | DeleteCategory
  | DeleteFeed
  deriving DecidableEq, Repr

/-- An action, with the four fields that `CalculateDiff` fills (`Typ` is the field `Type`
of the source); a field that a composite literal leaves out holds its zero value. -/
structure Action where
  Typ : ActionType
  CategoryTitle : String := ""
  FeedURL : String := ""
  FeedOptions : FeedOptions := {}
  deriving DecidableEq, Repr

/-- Modelled from the spec: the comparator `ActionSorter.Less`, whose source is not part
of the files at hand. The rank of an action type in the order
DeleteFeed < DeleteCategory < CreateCategory < CreateFeed < UpdateFeed. -/
def actionPriority : ActionType → Nat
  | .DeleteFeed => 1
  | .DeleteCategory => 2
  | .CreateCategory => 3
  | .CreateFeed => 4
  | .UpdateFeed => 5

/-- Modelled from the spec: `ActionSorter.Less`, on the two elements compared: the action
of the lower rank sorts first, and ties are broken by category title, then by feed URL. Go
orders strings lexicographically by bytes; the order on the character lists is the same
order for UTF-8 text. -/
def ActionSorter.Less (a b : Action) : Bool :=
  if actionPriority a.Typ ≠ actionPriority b.Typ then
    decide (actionPriority a.Typ < actionPriority b.Typ)
  else if a.CategoryTitle ≠ b.CategoryTitle then
    decide (a.CategoryTitle.toList < b.CategoryTitle.toList)
  else
    decide (a.FeedURL.toList < b.FeedURL.toList)

/-- The key that `ActionSorter.Less` compares, in the lexicographic order of triples. -/
def Action.sortKey (a : Action) : ℕ ×ₗ List Char ×ₗ List Char :=
  toLex (actionPriority a.Typ, toLex (a.CategoryTitle.toList, a.FeedURL.toList))

/-- Modelled from the spec: `sort.Sort(ActionSorter(actions))`, actions that the comparator
does not order staying in input order: an insertion sort that places `a` before `b` unless
`b` is less than `a`. -/
def sortActions (actions : List Action) : List Action :=
  actions.insertionSort fun a b => ActionSorter.Less b a = false

/-- One step of the sort: the action `a` is placed in front of the first action of `l` that
is not less than `a`. -/
def insertAction (a : Action) (l : List Action) : List Action :=
  l.orderedInsert (fun a b => ActionSorter.Less b a = false) a

/-! ## diff.go -/

/-- The first loop of `CalculateDiff`: the remote feeds that the local state lacks. -/
def deleteFeedActions (loc remote : State) : List Action :=
  remote.FeedURLsByCategoryTitle.entries.flatMap fun e =>
    e.2.flatMap fun feedURL =>
      if !loc.FeedExists feedURL e.1 then
        [{ Typ := .DeleteFeed, CategoryTitle := e.1, FeedURL := feedURL }]
      else []

/-- The second loop of `CalculateDiff`: the remote categories that the local state lacks. -/
def deleteCategoryActions (loc remote : State) : List Action :=
  remote.FeedURLsByCategoryTitle.entries.flatMap fun e =>
    if !loc.CategoryExists e.1 then [{ Typ := .DeleteCategory, CategoryTitle := e.1 }]
    else []

/-- The third loop of `CalculateDiff`: the local categories that the remote state lacks. -/
def createCategoryActions (loc remote : State) : List Action :=
  loc.FeedURLsByCategoryTitle.entries.flatMap fun e =>
    if !remote.CategoryExists e.1 then [{ Typ := .CreateCategory, CategoryTitle := e.1 }]
    else []

/-- The fourth loop of `CalculateDiff`: the local feeds that the remote state lacks. -/
def createFeedActions (loc remote : State) : List Action :=
  loc.GetFeedsByCategory.entries.flatMap fun e =>
    e.2.flatMap fun feed =>
      if !remote.FeedExists feed.URL e.1 then
        [{ Typ := .CreateFeed, CategoryTitle := e.1, FeedURL := feed.URL,
           FeedOptions := feed.Options }]
      else []

/-- The fifth loop of `CalculateDiff`: the feeds on both sides whose options need an
update. -/
def updateFeedActions (loc remote : State) : List Action :=
  loc.GetFeedsByCategory.entries.flatMap fun e =>
    e.2.flatMap fun localFeed =>
      if remote.FeedExists localFeed.URL e.1 then
        if needsUpdate localFeed.Options (remote.GetFeedOptions localFeed.URL) then
          [{ Typ := .UpdateFeed, CategoryTitle := e.1, FeedURL := localFeed.URL,
             FeedOptions := localFeed.Options }]
        else []
      else []

/-- The actions of `CalculateDiff` in the order the five loops append them, before the
sort. -/
def appendedActions (loc remote : State) : List Action :=
  deleteFeedActions loc remote ++ deleteCategoryActions loc remote ++
    createCategoryActions loc remote ++ createFeedActions loc remote ++
    updateFeedActions loc remote

/-- The function `CalculateDiff` of `diff.go`: the sorted actions, and the error, which is
always nil. -/
def CalculateDiff (loc remote : State) : List Action × Option String :=
  (sortActions (appendedActions loc remote), none)

/-! ## Vocabulary of the statements -/

/-- The action `DeleteFeed(c, u)`. -/
def Action.deleteFeed (c u : String) : Action :=
  { Typ := .DeleteFeed, CategoryTitle := c, FeedURL := u }

/-- The action `DeleteCategory(t)`. -/
def Action.deleteCategory (t : String) : Action :=
  { Typ := .DeleteCategory, CategoryTitle := t }

/-- The action `CreateCategory(t)`. -/
def Action.createCategory (t : String) : Action :=
  { Typ := .CreateCategory, CategoryTitle := t }

/-- The action `CreateFeed(c, u, o)`. -/
def Action.createFeed (c u : String) (o : Miniflux.FeedOptions) : Action :=
  { Typ := .CreateFeed, CategoryTitle := c, FeedURL := u, FeedOptions := o }

/-- The action `UpdateFeed(c, u, o)`. -/
def Action.updateFeed (c u : String) (o : Miniflux.FeedOptions) : Action :=
  { Typ := .UpdateFeed, CategoryTitle := c, FeedURL := u, FeedOptions := o }

/-- The state holds the feed `f` under the category `c`, by `GetFeedsByCategory`. -/
def State.HasFeed (s : State) (c : String) (f : Feed) : Prop :=
  ∃ feeds, s.GetFeedsByCategory.get? c = some feeds ∧ f ∈ feeds

/-- The URL `u` is in the URL list of the category `c` of the state. -/
def State.HasURL (s : State) (c u : String) : Prop :=
  ∃ feedURLs, s.FeedURLsByCategoryTitle.get? c = some feedURLs ∧ u ∈ feedURLs

/-- The title `t` is a category of the state: a key of `FeedURLsByCategoryTitle`. -/
def State.IsCategory (s : State) (t : String) : Prop :=
  t ∈ s.FeedURLsByCategoryTitle.entries.map Prod.fst

instance State.decIsCategory (s : State) (t : String) : Decidable (s.IsCategory t) := by
  unfold State.IsCategory
  infer_instance

/-- Every feed URL of `FeedsByCategoryTitle` occurs once across all categories. -/
def State.UniqueURLs (s : State) : Prop :=
  (s.FeedsByCategoryTitle.entries.flatMap fun e => e.2.map Feed.URL).Nodup

/-- The map `FeedURLsByCategoryTitle` is the URL projection of `FeedsByCategoryTitle`: the
same category keys, each with the URLs of its feeds in order (the two maps may enumerate
their entries in different orders). -/
def State.URLsProjectFeeds (s : State) : Prop :=
  s.FeedURLsByCategoryTitle.entries.Perm
    (s.FeedsByCategoryTitle.entries.map fun e => (e.1, e.2.map Feed.URL))

/-- A well-formed state: the URL map is the projection of the feed map, and feed URLs are
unique across all categories. -/
def State.WellFormed (s : State) : Prop :=
  s.URLsProjectFeeds ∧ s.UniqueURLs

instance State.decUniqueURLs (s : State) : Decidable s.UniqueURLs := by
  unfold State.UniqueURLs
  infer_instance

instance State.decWellFormed (s : State) : Decidable s.WellFormed := by
  unfold State.WellFormed State.URLsProjectFeeds
  infer_instance

/-- Two values of a map type with the same entries, enumerated in possibly different
orders. -/
def GoMap.SameEntries {V : Type} (m m' : GoMap V) : Prop :=
  m.entries.Perm m'.entries

/-- Two values of `State` whose maps hold the same entries, each map enumerated in possibly
different orders. -/
def State.SameMaps (s s' : State) : Prop :=
  s.FeedURLsByCategoryTitle.SameEntries s'.FeedURLsByCategoryTitle ∧
  s.FeedsByCategoryTitle.SameEntries s'.FeedsByCategoryTitle

instance State.decSameMaps (s s' : State) : Decidable (s.SameMaps s') := by
  unfold State.SameMaps GoMap.SameEntries
  infer_instance

/-- Every action of type `first` stands before every action of type `second`. -/
def AllBefore (first second : ActionType) (actions : List Action) : Prop :=
  ∀ (i j : Nat) (hi : i < actions.length) (hj : j < actions.length),
    (actions.get ⟨i, hi⟩).Typ = first → (actions.get ⟨j, hj⟩).Typ = second → i < j

/-! ## parse.go -/

/-- The assignment `m[k] = v` on the entries of a map: the entry of the key `k` is replaced
in place, and a new key is enumerated last. -/
def setEntry {V : Type} (k : String) (v : V) (entries : List (String × V)) :
    List (String × V) :=
  if k ∈ entries.map Prod.fst then
    entries.map fun e => if e.1 = k then (k, v) else e
  else entries ++ [(k, v)]

/-- The assignment `m[k] = v`. -/
def GoMap.set {V : Type} (m : GoMap V) (k : String) (v : V) : GoMap V :=
  { entries := setEntry k v m.entries
    nodup := by
      unfold setEntry
      by_cases hk : k ∈ m.entries.map Prod.fst
      · rw [if_pos hk]
        have hkeys : (m.entries.map fun e => if e.1 = k then (k, v) else e).map Prod.fst =
            m.entries.map Prod.fst := by
          rw [List.map_map]
          apply List.map_congr_left
          intro e _
          by_cases he : e.1 = k
          · simp [he]
          · simp [he]
        rw [hkeys]
        exact m.nodup
      · rw [if_neg hk, List.map_append, List.nodup_append]
        refine ⟨m.nodup, by simp, ?_⟩
        intro x hx hx'
        have hxk : x = k := by simpa using hx'
        exact hk (hxk ▸ hx) }

/-- The index expression `m[k]` read as a value: the zero value `d` for an absent key. -/
def GoMap.getD {V : Type} (m : GoMap V) (k : String) (d : V) : V :=
  match m.get? k with
  | some v => v
  | none => d

/-- The method `State.CategoryTitles` of `state.go`: the keys of the URL map, collected in
a set and listed from it. -/
def State.CategoryTitles (s : State) : List String :=
  let categorySet : GoMap Unit :=
    s.FeedURLsByCategoryTitle.entries.foldl (fun set e => set.set e.1 ())
      ⟨[], List.nodup_nil⟩
  categorySet.entries.map Prod.fst

/-- The type `feedEntry` of `parse.go`. -/
structure feedEntry where
  URL : String := ""
  Options : FeedOptions := {}
  deriving DecidableEq, Repr

/-- The local struct `raw` of `feedEntry.UnmarshalYAML`; a key that the YAML mapping lacks
leaves its field at the zero value. -/
structure rawFeedEntry where
  URL : String := ""
  Crawler : Option Bool := none
  Username : Option String := none
  Password : Option String := none
  UserAgent : Option String := none
  Cookie : Option String := none
  Disabled : Option Bool := none
  IgnoreHTTPCache : Option Bool := none
  FetchViaProxy : Option Bool := none
  AllowSelfSignedCertificates : Option Bool := none
  DisableHTTP2 : Option Bool := none
  ScraperRules : Option String := none
  RewriteRules : Option String := none
  BlocklistRules : Option String := none
  KeeplistRules : Option String := none
  HideGlobally : Option Bool := none
  deriving DecidableEq, Repr

/-- The callback `unmarshal` that the YAML library hands to `UnmarshalYAML`, given by the
outcome of the two calls the method makes: decoding the node into a string, and into the
struct `raw`. -/
structure Unmarshaler where
  intoString : Except String String
  intoRaw : Except String rawFeedEntry

/-- The message of the error that `UnmarshalYAML` creates. -/
def missingURLError : String :=
  "feed entry must have a url field"

/-- The method `feedEntry.UnmarshalYAML` of `parse.go`, on a zero-valued receiver: the decoded
entry, or the error. -/
def feedEntry.UnmarshalYAML (unmarshal : Unmarshaler) : Except String feedEntry :=
  match unmarshal.intoString with
  | .ok urlString => .ok { URL := urlString }
  | .error _ =>
    match unmarshal.intoRaw with
    | .error err => .error err
    | .ok raw =>
      if raw.URL == "" then .error missingURLError
      else
        .ok
          { URL := raw.URL
            Options :=
              { Crawler := raw.Crawler
                Username := raw.Username
                Password := raw.Password
                UserAgent := raw.UserAgent
                Cookie := raw.Cookie
                Disabled := raw.Disabled
                IgnoreHTTPCache := raw.IgnoreHTTPCache
                FetchViaProxy := raw.FetchViaProxy
                AllowSelfSignedCertificates := raw.AllowSelfSignedCertificates
                DisableHTTP2 := raw.DisableHTTP2
                ScraperRules := raw.ScraperRules
                RewriteRules := raw.RewriteRules
                BlocklistRules := raw.BlocklistRules
                KeeplistRules := raw.KeeplistRules
                HideGlobally := raw.HideGlobally } }

/-- A YAML node in the place of a feed entry: a plain string, or a mapping with the keys of
`raw` (the object form). -/
inductive YAMLEntry where
  | scalar (url : String)
  | mapping (raw : rawFeedEntry)
  deriving DecidableEq, Repr

/-- The behaviour of the YAML library (`gopkg.in/yaml.v2`, not part of the repository) on a
node: a scalar decodes into a string, a mapping does not decode into a string and decodes
into the struct `raw`. -/
def YAMLEntry.unmarshal : YAMLEntry → Unmarshaler
  | .scalar url =>
    { intoString := .ok url
      intoRaw := .error "yaml: cannot unmarshal !!str into struct" }
  | .mapping raw =>
    { intoString := .error "yaml: cannot unmarshal !!map into string"
      intoRaw := .ok raw }

/-- A declaration: the YAML document, a mapping from category titles to sequences of feed
entries. -/
abbrev Declaration := GoMap (List YAMLEntry)

/-- The decoding of one sequence of entries by the YAML library: `UnmarshalYAML` is called
on every node in order, and its first error ends the decoding. -/
def decodeEntries : List YAMLEntry → Except String (List feedEntry)
  | [] => .ok []
  | node :: rest =>
    match feedEntry.UnmarshalYAML node.unmarshal with
    | .error err => .error err
    | .ok entry =>
      match decodeEntries rest with
      | .error err => .error err
      | .ok entries => .ok (entry :: entries)

/-- The decoding of the categories of the document, in order. -/
def decodeCategories :
    List (String × List YAMLEntry) → Except String (List (String × List feedEntry))
  | [] => .ok []
  | e :: rest =>
    match decodeEntries e.2 with
    | .error err => .error err
    | .ok entries =>
      match decodeCategories rest with
      | .error err => .error err
      | .ok decoded => .ok ((e.1, entries) :: decoded)

/-- The call `yaml.Unmarshal(data, &rawData)` on the document: the entries of the map
`rawData`, or the error. -/
def yamlUnmarshal (decl : Declaration) : Except String (List (String × List feedEntry)) :=
  decodeCategories decl.entries

/-- The function `errors.Wrap(err, message)` of `github.com/pkg/errors`, on messages. -/
def errorsWrap (err message : String) : String :=
  message ++ ": " ++ err

/-- The body of the inner loop of `Parse`: the entry is appended to the slices of its
category in both maps. -/
def parseEntry (state : State) (category : String) (entry : feedEntry) : State :=
  { FeedURLsByCategoryTitle :=
      state.FeedURLsByCategoryTitle.set category
        (state.FeedURLsByCategoryTitle.getD category [] ++ [entry.URL])
    FeedsByCategoryTitle :=
      state.FeedsByCategoryTitle.set category
        (state.FeedsByCategoryTitle.getD category [] ++
          [{ URL := entry.URL, Options := entry.Options }]) }

/-- The two nested loops of `Parse` over `rawData`. -/
def parseLoop (rawData : List (String × List feedEntry)) (state : State) : State :=
  rawData.foldl
    (fun st e => e.2.foldl (fun st' entry => parseEntry st' e.1 entry) st) state

/-- The message of the error of `validateDuplicateFeedURLs`. -/
def duplicateError (url : String) : String :=
  "duplicate url found across categories: \"" ++ url ++ "\""

/-- The inner loop of `validateDuplicateFeedURLs`: the set after the URLs of one category,
or the error at the first URL that the set already holds. -/
def validateURLs (feedURLSet : List String) : List String → Except String (List String)
  | [] => .ok feedURLSet
  | url :: rest =>
    if feedURLSet.contains url then .error (duplicateError url)
    else validateURLs (url :: feedURLSet) rest

/-- The outer loop of `validateDuplicateFeedURLs`; `none` is the nil error. -/
def validateCategories (feedURLSet : List String) :
    List (String × List String) → Option String
  | [] => none
  | e :: rest =>
    match validateURLs feedURLSet e.2 with
    | .error err => some err
    | .ok feedURLSet' => validateCategories feedURLSet' rest

/-- The function `validateDuplicateFeedURLs` of `parse.go`. -/
def validateDuplicateFeedURLs (state : State) : Option String :=
  validateCategories [] state.FeedURLsByCategoryTitle.entries

/-- The state that `Parse` builds from `rawData`, before the validation: the two loops run
on a state with two empty maps. -/
def parsedState (rawData : List (String × List feedEntry)) : State :=
  parseLoop rawData
    { FeedURLsByCategoryTitle := ⟨[], List.nodup_nil⟩
      FeedsByCategoryTitle := ⟨[], List.nodup_nil⟩ }

/-- The function `Parse` of `parse.go`, from the YAML document on (reading the file is
outside the model): the state, or the message of the error. -/
def Parse (decl : Declaration) : Except String State :=
  match yamlUnmarshal decl with
  | .error err => .error (errorsWrap err "unmarshalling data")
  | .ok rawData =>
    let state := parsedState rawData
    match validateDuplicateFeedURLs state with
    | some err => .error (errorsWrap err "validating duplicate feed urls")
    | none => .ok state

/-- The URL that an entry of the declaration gives. -/
def YAMLEntry.url : YAMLEntry → String
  | .scalar url => url
  | .mapping raw => raw.URL

/-- The options that an entry of the declaration gives: none for a plain string, the option
keys of the mapping for the object form. -/
def YAMLEntry.options : YAMLEntry → FeedOptions
  | .scalar _ => {}
  | .mapping raw =>
    { Crawler := raw.Crawler
      Username := raw.Username
      Password := raw.Password
      UserAgent := raw.UserAgent
      Cookie := raw.Cookie
      Disabled := raw.Disabled
      IgnoreHTTPCache := raw.IgnoreHTTPCache
      FetchViaProxy := raw.FetchViaProxy
      AllowSelfSignedCertificates := raw.AllowSelfSignedCertificates
      DisableHTTP2 := raw.DisableHTTP2
      ScraperRules := raw.ScraperRules
      RewriteRules := raw.RewriteRules
      BlocklistRules := raw.BlocklistRules
      KeeplistRules := raw.KeeplistRules
      HideGlobally := raw.HideGlobally }

/-- The feed that an entry of the declaration gives. -/
def YAMLEntry.feed (node : YAMLEntry) : Feed :=
  { URL := node.url, Options := node.options }

/-- The decoded entry that an entry of the declaration gives. -/
def YAMLEntry.entry (node : YAMLEntry) : feedEntry :=
  { URL := node.url, Options := node.options }

/-- The entry is a plain string, or an object with a non-empty `url`. -/
def YAMLEntry.hasURL : YAMLEntry → Bool
  | .scalar _ => true
  | .mapping raw => raw.URL != ""

/-- Every entry of the declaration is a plain string or an object with a non-empty `url`. -/
def Declaration.EntriesHaveURL (decl : Declaration) : Prop :=
  ∀ e ∈ decl.entries, ∀ node ∈ e.2, node.hasURL = true

instance Declaration.decEntriesHaveURL (decl : Declaration) :
    Decidable decl.EntriesHaveURL := by
  unfold Declaration.EntriesHaveURL
  infer_instance

/-- All feed URLs of the declaration, category after category, in declared order. -/
def Declaration.urls (decl : Declaration) : List String :=
  decl.entries.flatMap fun e => e.2.map YAMLEntry.url

/-- The message `msg` contains the text `part`. -/
def Mentions (msg part : String) : Prop :=
  part.toList <:+: msg.toList

/-! ## api/state.go -/

/-- The field of `miniflux.Category` (client library) that the code reads. -/
structure MinifluxCategory where
  Title : String
  deriving DecidableEq, Repr

/-- The fields of `miniflux.Feed` (client library) that the code reads; `Category` is a
pointer. -/
structure MinifluxFeed where
  FeedURL : String
  Category : Option MinifluxCategory
  Crawler : Bool := false
  Username : String := ""
  Password : String := ""
  UserAgent : String := ""
  Cookie : String := ""
  Disabled : Bool := false
  IgnoreHTTPCache : Bool := false
  FetchViaProxy : Bool := false
  AllowSelfSignedCertificates : Bool := false
  DisableHTTP2 : Bool := false
  ScraperRules : String := ""
  RewriteRules : String := ""
  BlocklistRules : String := ""
  KeeplistRules : String := ""
  HideGlobally : Bool := false
  deriving DecidableEq, Repr

/-- The function `boolPtr` of `api/state.go`. -/
def boolPtr (b : Bool) : Option Bool :=
  some b

/-- The function `stringPtrIfNotEmpty` of `api/state.go`. -/
def stringPtrIfNotEmpty (s : String) : Option String :=
  if s == "" then none else some s

/-- The function `extractFeedOptions` of `api/state.go`. -/
def extractFeedOptions (feed : MinifluxFeed) : FeedOptions :=
  { Crawler := boolPtr feed.Crawler
    Username := stringPtrIfNotEmpty feed.Username
    Password := stringPtrIfNotEmpty feed.Password
    UserAgent := stringPtrIfNotEmpty feed.UserAgent
    Cookie := stringPtrIfNotEmpty feed.Cookie
    Disabled := boolPtr feed.Disabled
    IgnoreHTTPCache := boolPtr feed.IgnoreHTTPCache
    FetchViaProxy := boolPtr feed.FetchViaProxy
    AllowSelfSignedCertificates := boolPtr feed.AllowSelfSignedCertificates
    DisableHTTP2 := boolPtr feed.DisableHTTP2
    ScraperRules := stringPtrIfNotEmpty feed.ScraperRules
    RewriteRules := stringPtrIfNotEmpty feed.RewriteRules
    BlocklistRules := stringPtrIfNotEmpty feed.BlocklistRules
    KeeplistRules := stringPtrIfNotEmpty feed.KeeplistRules
    HideGlobally := boolPtr feed.HideGlobally }

/-- The first loop of `GenerateDiffState`: an empty slice for each category, in both
maps. -/
def initCategories (categories : List MinifluxCategory) (state : State) : State :=
  categories.foldl
    (fun st category =>
      { FeedURLsByCategoryTitle := st.FeedURLsByCategoryTitle.set category.Title []
        FeedsByCategoryTitle := st.FeedsByCategoryTitle.set category.Title [] })
    state

/-- The second loop of `GenerateDiffState`: every feed is appended to the slices of its
category; a feed without a category ends the function with the error. -/
def populateFeeds : List MinifluxFeed → State → Except String State
  | [], state => .ok state
  | feed :: rest, state =>
    match feed.Category with
    | none => .error "feed has no category"
    | some category =>
      populateFeeds rest
        { FeedURLsByCategoryTitle :=
            state.FeedURLsByCategoryTitle.set category.Title
              (state.FeedURLsByCategoryTitle.getD category.Title [] ++ [feed.FeedURL])
          FeedsByCategoryTitle :=
            state.FeedsByCategoryTitle.set category.Title
              (state.FeedsByCategoryTitle.getD category.Title [] ++
                [{ URL := feed.FeedURL, Options := extractFeedOptions feed }]) }

/-- The function `GenerateDiffState` of `api/state.go`: the state, or the message of the
error. -/
def GenerateDiffState (feeds : List MinifluxFeed) (categories : List MinifluxCategory) :
    Except String State :=
  populateFeeds feeds
    (initCategories categories
      { FeedURLsByCategoryTitle := ⟨[], List.nodup_nil⟩
        FeedsByCategoryTitle := ⟨[], List.nodup_nil⟩ })

/-- The category of the feed has the title `t`. -/
def MinifluxFeed.hasTitle (t : String) (feed : MinifluxFeed) : Bool :=
  match feed.Category with
  | some category => category.Title == t
  | none => false

/-- The feed of the state that a feed of the service gives. -/
def MinifluxFeed.toFeed (feed : MinifluxFeed) : Feed :=
  { URL := feed.FeedURL, Options := extractFeedOptions feed }

/-! ## cmd/dump.go -/

/-- The type `dumpFeedEntry` of `dump.go`. -/
structure dumpFeedEntry where
  URL : String
  Crawler : Option Bool := none
  Username : Option String := none
  Password : Option String := none
  UserAgent : Option String := none
  Cookie : Option String := none
  Disabled : Option Bool := none
  IgnoreHTTPCache : Option Bool := none
  FetchViaProxy : Option Bool := none
  AllowSelfSignedCertificates : Option Bool := none
  DisableHTTP2 : Option Bool := none
  ScraperRules : Option String := none
  RewriteRules : Option String := none
  BlocklistRules : Option String := none
  KeeplistRules : Option String := none
  HideGlobally : Option Bool := none
  deriving DecidableEq, Repr

/-- An element of the output slices (`interface{}` in the source): the URL string of a
feed, or its object entry. -/
inductive DumpItem where
  | url (feedURL : String)
  | entry (e : dumpFeedEntry)
  deriving DecidableEq, Repr

/-- The function `nonDefaultBool` of `dump.go`. -/
def nonDefaultBool (ptr : Option Bool) (defaultVal : Bool) : Option Bool :=
  match ptr with
  | none => none
  | some b => if b == defaultVal then none else some b

/-- The function `hasNonDefaultOptions` of `dump.go`: the chain of fifteen guarded returns,
in the order of the source. -/
def hasNonDefaultOptions (opts : FeedOptions) : Bool :=
  if opts.Crawler == some true then true
  else if opts.Disabled == some true then true
  else if opts.IgnoreHTTPCache == some true then true
  else if opts.FetchViaProxy == some true then true
  else if opts.AllowSelfSignedCertificates == some true then true
  else if opts.DisableHTTP2 == some true then true
  else if opts.HideGlobally == some true then true
  else if opts.Username != none && opts.Username != some "" then true
  else if opts.Password != none && opts.Password != some "" then true
  else if opts.UserAgent != none && opts.UserAgent != some "" then true
  else if opts.Cookie != none && opts.Cookie != some "" then true
  else if opts.ScraperRules != none && opts.ScraperRules != some "" then true
  else if opts.RewriteRules != none && opts.RewriteRules != some "" then true
  else if opts.BlocklistRules != none && opts.BlocklistRules != some "" then true
  else if opts.KeeplistRules != none && opts.KeeplistRules != some "" then true
  else false

/-- The composite literal `dumpFeedEntry{...}` of `buildDumpOutput`. -/
def dumpEntry (feed : Feed) : dumpFeedEntry :=
  { URL := feed.URL
    Crawler := nonDefaultBool feed.Options.Crawler false
    Username := feed.Options.Username
    Password := feed.Options.Password
    UserAgent := feed.Options.UserAgent
    Cookie := feed.Options.Cookie
    Disabled := nonDefaultBool feed.Options.Disabled false
    IgnoreHTTPCache := nonDefaultBool feed.Options.IgnoreHTTPCache false
    FetchViaProxy := nonDefaultBool feed.Options.FetchViaProxy false
    AllowSelfSignedCertificates := nonDefaultBool feed.Options.AllowSelfSignedCertificates false
    DisableHTTP2 := nonDefaultBool feed.Options.DisableHTTP2 false
    ScraperRules := feed.Options.ScraperRules
    RewriteRules := feed.Options.RewriteRules
    BlocklistRules := feed.Options.BlocklistRules
    KeeplistRules := feed.Options.KeeplistRules
    HideGlobally := nonDefaultBool feed.Options.HideGlobally false }

/-- The body of the inner loop of `buildDumpOutput`. -/
def dumpFeed (output : GoMap (List DumpItem)) (category : String) (feed : Feed) :
    GoMap (List DumpItem) :=
  if hasNonDefaultOptions feed.Options then
    output.set category (output.getD category [] ++ [.entry (dumpEntry feed)])
  else
    output.set category (output.getD category [] ++ [.url feed.URL])

/-- The function `buildDumpOutput` of `dump.go`. -/
def buildDumpOutput (state : State) : GoMap (List DumpItem) :=
  state.FeedsByCategoryTitle.entries.foldl
    (fun output e => e.2.foldl (fun output' feed => dumpFeed output' e.1 feed) output)
    ⟨[], List.nodup_nil⟩

/-- The element that `buildDumpOutput` emits for a feed. -/
def dumpItem (feed : Feed) : DumpItem :=
  if hasNonDefaultOptions feed.Options then .entry (dumpEntry feed) else .url feed.URL

/-- The YAML node that an element of the dump is marshalled to: a string, or a mapping
with the key `url` and the keys of the options that are not nil (`omitempty`). -/
def DumpItem.toYAML : DumpItem → YAMLEntry
  | .url feedURL => .scalar feedURL
  | .entry e =>
    .mapping
      { URL := e.URL
        Crawler := e.Crawler
        Username := e.Username
        Password := e.Password
        UserAgent := e.UserAgent
        Cookie := e.Cookie
        Disabled := e.Disabled
        IgnoreHTTPCache := e.IgnoreHTTPCache
        FetchViaProxy := e.FetchViaProxy
        AllowSelfSignedCertificates := e.AllowSelfSignedCertificates
        DisableHTTP2 := e.DisableHTTP2
        ScraperRules := e.ScraperRules
        RewriteRules := e.RewriteRules
        BlocklistRules := e.BlocklistRules
        KeeplistRules := e.KeeplistRules
        HideGlobally := e.HideGlobally }

/-- The option set that the dump of a feed with the options `o` gives when it is read back
as a declaration. -/
def dumpedOptions (o : FeedOptions) : FeedOptions :=
  (dumpItem { URL := "", Options := o }).toYAML.options

/-- The declaration that the dump of a state is: the output of `buildDumpOutput`,
marshalled. -/
def dumpDeclaration (state : State) : Declaration :=
  { entries := (buildDumpOutput state).entries.map fun e => (e.1, e.2.map DumpItem.toYAML)
    nodup := by
      simpa [Function.comp_def] using (buildDumpOutput state).nodup }

/-- Some boolean option is set to true, or some string option to a non-empty string. -/
def SomeNonDefault (o : FeedOptions) : Prop :=
  o.Crawler = some true ∨ o.Disabled = some true ∨ o.IgnoreHTTPCache = some true ∨
  o.FetchViaProxy = some true ∨ o.AllowSelfSignedCertificates = some true ∨
  o.DisableHTTP2 = some true ∨ o.HideGlobally = some true ∨
  (∃ v, o.Username = some v ∧ v ≠ "") ∨ (∃ v, o.Password = some v ∧ v ≠ "") ∨
  (∃ v, o.UserAgent = some v ∧ v ≠ "") ∨ (∃ v, o.Cookie = some v ∧ v ≠ "") ∨
  (∃ v, o.ScraperRules = some v ∧ v ≠ "") ∨ (∃ v, o.RewriteRules = some v ∧ v ≠ "") ∨
  (∃ v, o.BlocklistRules = some v ∧ v ≠ "") ∨ (∃ v, o.KeeplistRules = some v ∧ v ≠ "")

/-! ## Example states -/

/-- The state without categories. -/
def emptyState : State :=
  { FeedURLsByCategoryTitle := ⟨[], by simp⟩
    FeedsByCategoryTitle := ⟨[], by simp⟩ }

/-- The option set that sets only `crawler=true`. -/
def crawlerOn : FeedOptions :=
  { Crawler := some true }

/-- The state with the category "Tech" holding the feed "http://x" with `crawler=true`. -/
def techCrawlerState : State :=
  { FeedURLsByCategoryTitle := ⟨[("Tech", ["http://x"])], by simp⟩
    FeedsByCategoryTitle := ⟨[("Tech", [{ URL := "http://x", Options := crawlerOn }])], by simp⟩ }

/-- The state with the category "Tech" holding the feed "http://x" without options. -/
def techPlainState : State :=
  { FeedURLsByCategoryTitle := ⟨[("Tech", ["http://x"])], by simp⟩
    FeedsByCategoryTitle := ⟨[("Tech", [{ URL := "http://x" }])], by simp⟩ }

/-- The state with the category "News" holding the feed "http://x" without options, and
the empty category "Tech". -/
def newsState : State :=
  { FeedURLsByCategoryTitle := ⟨[("News", ["http://x"]), ("Tech", [])], by simp⟩
    FeedsByCategoryTitle := ⟨[("News", [{ URL := "http://x" }]), ("Tech", [])], by simp⟩ }

/-- A state that is not well formed: the URL "u" is under "A" with `crawler=true` and under
"B" without options, and the feed map enumerates "B" first. -/
def duplicateURLState : State :=
  { FeedURLsByCategoryTitle := ⟨[("A", ["u"]), ("B", ["u"])], by simp⟩
    FeedsByCategoryTitle :=
      ⟨[("B", [{ URL := "u" }]), ("A", [{ URL := "u", Options := crawlerOn }])], by simp⟩ }

/-- The state `{c: [u]}` whose only feed has the options `o`. -/
def singleFeedState (c u : String) (o : FeedOptions) : State :=
  { FeedURLsByCategoryTitle := ⟨[(c, [u])], by simp⟩
    FeedsByCategoryTitle := ⟨[(c, [{ URL := u, Options := o }])], by simp⟩ }

/-- The option set with `crawler=false` and `disabled=true`. -/
def crawlerOffDisabled : FeedOptions :=
  { Crawler := some false, Disabled := some true }

/-- The state `{"Tech": ["http://x"]}` given by its URL map alone, `FeedsByCategoryTitle`
not being set. -/
def techURLOnlyState : State :=
  { FeedURLsByCategoryTitle := ⟨[("Tech", ["http://x"])], by simp⟩
    FeedsByCategoryTitle := ⟨[], by simp⟩ }

/-- The state `{"Tech": []}`: the category exists with zero feeds. -/
def techEmptyState : State :=
  { FeedURLsByCategoryTitle := ⟨[("Tech", [])], by simp⟩
    FeedsByCategoryTitle := ⟨[("Tech", [])], by simp⟩ }

/-- The state `{"Tech": []}` given by its URL map alone. -/
def techEmptyURLOnlyState : State :=
  { FeedURLsByCategoryTitle := ⟨[("Tech", [])], by simp⟩
    FeedsByCategoryTitle := ⟨[], by simp⟩ }

/-- The state `duplicateURLState` with the feed map enumerated in the other order, "A"
first. -/
def duplicateURLStateAB : State :=
  { FeedURLsByCategoryTitle := ⟨[("A", ["u"]), ("B", ["u"])], by simp⟩
    FeedsByCategoryTitle :=
      ⟨[("A", [{ URL := "u", Options := crawlerOn }]), ("B", [{ URL := "u" }])], by simp⟩ }

/-- The state `newsState` with both maps enumerated in the other order, "Tech" first. -/
def newsStateSwapped : State :=
  { FeedURLsByCategoryTitle := ⟨[("Tech", []), ("News", ["http://x"])], by simp⟩
    FeedsByCategoryTitle := ⟨[("Tech", []), ("News", [{ URL := "http://x" }])], by simp⟩ }

/-- The declaration with "https://example.com/feed.xml" under "Tech" and under "News". -/
def duplicateAcrossDecl : Declaration :=
  ⟨[("Tech", [.scalar "https://example.com/feed.xml"]),
    ("News", [.scalar "https://example.com/feed.xml"])], by simp⟩

/-- The declaration with "https://example.com/feed.xml" twice under "Tech". -/
def duplicateWithinDecl : Declaration :=
  ⟨[("Tech", [.scalar "https://example.com/feed.xml",
      .scalar "https://example.com/feed.xml"])], by simp⟩

/-- The object entry with `crawler`, `username` and `password` of the mixed declaration. -/
def fullEntry : YAMLEntry :=
  .mapping
    { URL := "https://full.com/feed.xml", Crawler := some true, Username := some "user",
      Password := some "pass" }

/-- The declaration with a plain string entry and an object entry under "Tech". -/
def mixedDecl : Declaration :=
  ⟨[("Tech", [.scalar "https://simple.com/feed.xml", fullEntry])], by simp⟩

/-- The declaration with "https://example.com/feed.xml" twice under "Tech", followed by an
object entry with `crawler: true` and no `url`. -/
def duplicateAndMissingURLDecl : Declaration :=
  ⟨[("Tech", [.scalar "https://example.com/feed.xml",
      .scalar "https://example.com/feed.xml", .mapping { Crawler := some true }])], by simp⟩

/-- The declaration whose only entry is an object with `crawler: true` and no `url`. -/
def missingURLDecl : Declaration :=
  ⟨[("Tech", [.mapping { Crawler := some true }])], by simp⟩

/-- The declaration `Tech: []`: the category "Tech" with zero feed entries. -/
def emptyTechDecl : Declaration :=
  ⟨[("Tech", [])], by simp⟩

/-- The category "Tech" of the service. -/
def techCategory : MinifluxCategory :=
  { Title := "Tech" }

/-- A feed of the service under "Tech" with every option at its default: the booleans
false and the strings empty. -/
def plainRemoteFeed : MinifluxFeed :=
  { FeedURL := "http://x", Category := some techCategory }

/-- A feed of the service without a category. -/
def orphanFeed : MinifluxFeed :=
  { FeedURL := "http://y", Category := none }

/-- The option set that sets only `username` to the empty string. -/
def emptyUsername : FeedOptions :=
  { Username := some "" }

/-- The option set that sets only `crawler=false`. -/
def crawlerOff : FeedOptions :=
  { Crawler := some false }

/-- An attribute set in the local options is unset or has another value remotely. -/
def AttrDiffers {α : Type} (a b : Option α) : Prop :=
  a ≠ none ∧ a ≠ b

/-- The option set has at least one attribute set. -/
def SomeAttrSet (o : FeedOptions) : Prop :=
  o.Crawler ≠ none ∨ o.Username ≠ none ∨ o.Password ≠ none ∨ o.UserAgent ≠ none ∨
  o.Cookie ≠ none ∨ o.Disabled ≠ none ∨ o.IgnoreHTTPCache ≠ none ∨
  o.FetchViaProxy ≠ none ∨ o.AllowSelfSignedCertificates ≠ none ∨
  o.DisableHTTP2 ≠ none ∨ o.ScraperRules ≠ none ∨ o.RewriteRules ≠ none ∨
  o.BlocklistRules ≠ none ∨ o.KeeplistRules ≠ none ∨ o.HideGlobally ≠ none

/-- At least one attribute set in `o` is unset or has a different value in `r`. -/
def SomeAttrDiffers (o r : FeedOptions) : Prop :=
  AttrDiffers o.Crawler r.Crawler ∨
  AttrDiffers o.Username r.Username ∨
  AttrDiffers o.Password r.Password ∨
  AttrDiffers o.UserAgent r.UserAgent ∨
  AttrDiffers o.Cookie r.Cookie ∨
  AttrDiffers o.Disabled r.Disabled ∨
  AttrDiffers o.IgnoreHTTPCache r.IgnoreHTTPCache ∨
  AttrDiffers o.FetchViaProxy r.FetchViaProxy ∨
  AttrDiffers o.AllowSelfSignedCertificates r.AllowSelfSignedCertificates ∨
  AttrDiffers o.DisableHTTP2 r.DisableHTTP2 ∨
  AttrDiffers o.ScraperRules r.ScraperRules ∨
  AttrDiffers o.RewriteRules r.RewriteRules ∨
  AttrDiffers o.BlocklistRules r.BlocklistRules ∨
  AttrDiffers o.KeeplistRules r.KeeplistRules ∨
  AttrDiffers o.HideGlobally r.HideGlobally

/-- An attribute of the receiver agrees with the other side: when it is set, the other
side holds the same value (and so is set too); an unset attribute always agrees. -/
def AttrAgrees {α : Type} (a b : Option α) : Prop :=
  a ≠ none → a = b

/-- The reading of option-set equality in the specification: every attribute set in `A`
has the identical value in `B`. -/
def EqualSpec (A B : FeedOptions) : Prop :=
  AttrAgrees A.Crawler B.Crawler ∧
  AttrAgrees A.Username B.Username ∧
  AttrAgrees A.Password B.Password ∧
  AttrAgrees A.UserAgent B.UserAgent ∧
  AttrAgrees A.Cookie B.Cookie ∧
  AttrAgrees A.Disabled B.Disabled ∧
  AttrAgrees A.IgnoreHTTPCache B.IgnoreHTTPCache ∧
  AttrAgrees A.FetchViaProxy B.FetchViaProxy ∧
  AttrAgrees A.AllowSelfSignedCertificates B.AllowSelfSignedCertificates ∧
  AttrAgrees A.DisableHTTP2 B.DisableHTTP2 ∧
  AttrAgrees A.ScraperRules B.ScraperRules ∧
  AttrAgrees A.RewriteRules B.RewriteRules ∧
  AttrAgrees A.BlocklistRules B.BlocklistRules ∧
  AttrAgrees A.KeeplistRules B.KeeplistRules ∧
  AttrAgrees A.HideGlobally B.HideGlobally

/-- The URL map of the state is, entry by entry, the URL projection of its feed map. -/
def State.Lockstep (s : State) : Prop :=
  s.FeedURLsByCategoryTitle.entries =
    s.FeedsByCategoryTitle.entries.map fun e => (e.1, e.2.map Feed.URL)

/-- Every attribute that the local option set `o` sets equals the corresponding field of the
feed of the service. -/
def OptionsMatch (o : FeedOptions) (feed : MinifluxFeed) : Prop :=
  AttrAgrees o.Crawler (some feed.Crawler) ∧
  AttrAgrees o.Username (some feed.Username) ∧
  AttrAgrees o.Password (some feed.Password) ∧
  AttrAgrees o.UserAgent (some feed.UserAgent) ∧
  AttrAgrees o.Cookie (some feed.Cookie) ∧
  AttrAgrees o.Disabled (some feed.Disabled) ∧
  AttrAgrees o.IgnoreHTTPCache (some feed.IgnoreHTTPCache) ∧
  AttrAgrees o.FetchViaProxy (some feed.FetchViaProxy) ∧
  AttrAgrees o.AllowSelfSignedCertificates (some feed.AllowSelfSignedCertificates) ∧
  AttrAgrees o.DisableHTTP2 (some feed.DisableHTTP2) ∧
  AttrAgrees o.ScraperRules (some feed.ScraperRules) ∧
  AttrAgrees o.RewriteRules (some feed.RewriteRules) ∧
  AttrAgrees o.BlocklistRules (some feed.BlocklistRules) ∧
  AttrAgrees o.KeeplistRules (some feed.KeeplistRules) ∧
  AttrAgrees o.HideGlobally (some feed.HideGlobally)

/-- No string attribute of the option set is set to the empty string. -/
def NoEmptyString (o : FeedOptions) : Prop :=
  o.Username ≠ some "" ∧ o.Password ≠ some "" ∧ o.UserAgent ≠ some "" ∧
  o.Cookie ≠ some "" ∧ o.ScraperRules ≠ some "" ∧ o.RewriteRules ≠ some "" ∧
  o.BlocklistRules ≠ some "" ∧ o.KeeplistRules ≠ some ""

/-! ## Lemmas on option sets -/

theorem boolPtr_guard (a b : Option Bool) :
    (a != none && !boolPtrEqual a b) = false ↔ AttrAgrees a b := by
  cases a <;> cases b <;> simp [boolPtrEqual, AttrAgrees]

theorem stringPtr_guard (a b : Option String) :
    (a != none && !stringPtrEqual a b) = false ↔ AttrAgrees a b := by
  cases a <;> cases b <;> simp [stringPtrEqual, AttrAgrees]

theorem ite_guard_false (c t : Bool) :
    ((if c = true then false else t) = true) ↔ (c = false ∧ t = true) := by
  cases c <;> simp

theorem Equal_iff_EqualSpec (A B : FeedOptions) : A.Equal B = true ↔ EqualSpec A B := by
  unfold FeedOptions.Equal EqualSpec
  simp only [ite_guard_false, boolPtr_guard, stringPtr_guard, and_true]

theorem isEmpty_iff (o : FeedOptions) :
    o.IsEmpty = true ↔
      o.Crawler = none ∧ o.Username = none ∧ o.Password = none ∧ o.UserAgent = none ∧
      o.Cookie = none ∧ o.Disabled = none ∧ o.IgnoreHTTPCache = none ∧
      o.FetchViaProxy = none ∧ o.AllowSelfSignedCertificates = none ∧
      o.DisableHTTP2 = none ∧ o.ScraperRules = none ∧ o.RewriteRules = none ∧
      o.BlocklistRules = none ∧ o.KeeplistRules = none ∧ o.HideGlobally = none := by
  simp [FeedOptions.IsEmpty, and_assoc]

theorem Equal_self (o : FeedOptions) : o.Equal o = true := by
  rw [Equal_iff_EqualSpec]
  simp [EqualSpec, AttrAgrees]

theorem Equal_of_isEmpty (A B : FeedOptions) (h : A.IsEmpty = true) : A.Equal B = true := by
  rw [Equal_iff_EqualSpec]
  rw [isEmpty_iff] at h
  obtain ⟨h1, h2, h3, h4, h5, h6, h7, h8, h9, h10, h11, h12, h13, h14, h15⟩ := h
  simp [EqualSpec, AttrAgrees, h1, h2, h3, h4, h5, h6, h7, h8, h9, h10, h11, h12, h13, h14, h15]

theorem needsUpdate_self (o : FeedOptions) : needsUpdate o o = false := by
  simp [needsUpdate, Equal_self]

/-! ## Lemmas on maps and states -/

theorem lookup_eq_some_iff_mem {V : Type} (l : List (String × V))
    (hl : (l.map Prod.fst).Nodup) (k : String) (v : V) :
    l.lookup k = some v ↔ (k, v) ∈ l := by
  induction l with
  | nil => simp
  | cons p l ih =>
    obtain ⟨k', v'⟩ := p
    rw [List.map_cons, List.nodup_cons] at hl
    by_cases hk : k = k'
    · subst hk
      have hnot : (k, v) ∉ l := fun hmem =>
        hl.1 (List.mem_map.2 ⟨(k, v), hmem, rfl⟩)
      simp [List.lookup, hnot, eq_comm]
    · have hb : (k == k') = false := by simpa using hk
      simp [List.lookup, hb, hk, ih hl.2]

theorem GoMap.get?_eq_some_iff {V : Type} (m : GoMap V) (k : String) (v : V) :
    m.get? k = some v ↔ (k, v) ∈ m.entries :=
  lookup_eq_some_iff_mem m.entries m.nodup k v

theorem GoMap.get?_eq_none_iff {V : Type} (m : GoMap V) (k : String) :
    m.get? k = none ↔ k ∉ m.entries.map Prod.fst := by
  unfold GoMap.get?
  rw [List.lookup_eq_none_iff]
  constructor
  · intro h hk
    obtain ⟨p, hp, rfl⟩ := List.mem_map.1 hk
    simpa using h p hp
  · intro h p hp
    have : ¬ k = p.1 := fun he => h (he ▸ List.mem_map_of_mem Prod.fst hp)
    simpa using this

theorem GoMap.mem_keys_iff {V : Type} (m : GoMap V) (k : String) :
    k ∈ m.entries.map Prod.fst ↔ ∃ v, m.get? k = some v := by
  constructor
  · intro hk
    obtain ⟨p, hp, rfl⟩ := List.mem_map.1 hk
    exact ⟨p.2, (m.get?_eq_some_iff p.1 p.2).2 hp⟩
  · rintro ⟨v, hv⟩
    exact List.mem_map.2 ⟨(k, v), (m.get?_eq_some_iff k v).1 hv, rfl⟩

theorem CategoryExists_iff (s : State) (t : String) :
    s.CategoryExists t = true ↔ s.IsCategory t := by
  unfold State.CategoryExists State.IsCategory
  rw [GoMap.mem_keys_iff]
  cases h : s.FeedURLsByCategoryTitle.get? t <;> simp

theorem CategoryExists_eq_false_iff (s : State) (t : String) :
    s.CategoryExists t = false ↔ ¬ s.IsCategory t := by
  rw [← CategoryExists_iff]
  simp

theorem FeedExists_iff (s : State) (u c : String) :
    s.FeedExists u c = true ↔ s.HasURL c u := by
  unfold State.FeedExists State.HasURL
  cases h : s.FeedURLsByCategoryTitle.get? c <;> simp

theorem FeedExists_of_mem (s : State) (c u : String) (feedURLs : List String)
    (he : (c, feedURLs) ∈ s.FeedURLsByCategoryTitle.entries) (hu : u ∈ feedURLs) :
    s.FeedExists u c = true :=
  (FeedExists_iff s u c).2 ⟨feedURLs, (GoMap.get?_eq_some_iff _ c feedURLs).2 he, hu⟩

theorem CategoryExists_of_mem (s : State) (c : String) (feedURLs : List String)
    (he : (c, feedURLs) ∈ s.FeedURLsByCategoryTitle.entries) :
    s.CategoryExists c = true :=
  (CategoryExists_iff s c).2 (List.mem_map.2 ⟨(c, feedURLs), he, rfl⟩)

theorem HasFeed_iff_mem (s : State) (c : String) (f : Feed) :
    s.HasFeed c f ↔ ∃ feeds, (c, feeds) ∈ s.GetFeedsByCategory.entries ∧ f ∈ feeds := by
  unfold State.HasFeed
  simp only [GoMap.get?_eq_some_iff]

/-! ## Lemmas on the five loops -/

theorem mem_deleteFeedActions (loc remote : State) (a : Action) :
    a ∈ deleteFeedActions loc remote ↔
      ∃ c u, a = Action.deleteFeed c u ∧ remote.HasURL c u ∧ loc.FeedExists u c = false := by
  simp only [deleteFeedActions, List.mem_flatMap, Action.deleteFeed, State.HasURL,
    GoMap.get?_eq_some_iff]
  constructor
  · rintro ⟨e, he, u, hu, ha⟩
    by_cases hex : loc.FeedExists u e.1 = true
    · simp [hex] at ha
    · simp only [Bool.not_eq_true] at hex
      simp only [hex, Bool.not_false, if_true, List.mem_singleton] at ha
      exact ⟨e.1, u, ha, ⟨e.2, he, hu⟩, hex⟩
  · rintro ⟨c, u, rfl, ⟨feedURLs, he, hu⟩, hex⟩
    exact ⟨(c, feedURLs), he, u, hu, by simp [hex]⟩

theorem mem_deleteCategoryActions (loc remote : State) (a : Action) :
    a ∈ deleteCategoryActions loc remote ↔
      ∃ t, a = Action.deleteCategory t ∧ remote.IsCategory t ∧ ¬ loc.IsCategory t := by
  simp only [deleteCategoryActions, List.mem_flatMap, Action.deleteCategory,
    ← CategoryExists_eq_false_iff]
  constructor
  · rintro ⟨e, he, ha⟩
    by_cases hex : loc.CategoryExists e.1 = true
    · simp [hex] at ha
    · simp only [Bool.not_eq_true] at hex
      simp only [hex, Bool.not_false, if_true, List.mem_singleton] at ha
      exact ⟨e.1, ha, List.mem_map_of_mem Prod.fst he, hex⟩
  · rintro ⟨t, rfl, ht, hex⟩
    obtain ⟨e, he, rfl⟩ := List.mem_map.1 ht
    exact ⟨e, he, by simp [hex]⟩

theorem mem_createCategoryActions (loc remote : State) (a : Action) :
    a ∈ createCategoryActions loc remote ↔
      ∃ t, a = Action.createCategory t ∧ loc.IsCategory t ∧ ¬ remote.IsCategory t := by
  simp only [createCategoryActions, List.mem_flatMap, Action.createCategory,
    ← CategoryExists_eq_false_iff]
  constructor
  · rintro ⟨e, he, ha⟩
    by_cases hex : remote.CategoryExists e.1 = true
    · simp [hex] at ha
    · simp only [Bool.not_eq_true] at hex
      simp only [hex, Bool.not_false, if_true, List.mem_singleton] at ha
      exact ⟨e.1, ha, List.mem_map_of_mem Prod.fst he, hex⟩
  · rintro ⟨t, rfl, ht, hex⟩
    obtain ⟨e, he, rfl⟩ := List.mem_map.1 ht
    exact ⟨e, he, by simp [hex]⟩

theorem mem_createFeedActions (loc remote : State) (a : Action) :
    a ∈ createFeedActions loc remote ↔
      ∃ c f, a = Action.createFeed c f.URL f.Options ∧ loc.HasFeed c f ∧
        remote.FeedExists f.URL c = false := by
  simp only [createFeedActions, List.mem_flatMap, Action.createFeed, HasFeed_iff_mem]
  constructor
  · rintro ⟨e, he, f, hf, ha⟩
    by_cases hex : remote.FeedExists f.URL e.1 = true
    · simp [hex] at ha
    · simp only [Bool.not_eq_true] at hex
      simp only [hex, Bool.not_false, if_true, List.mem_singleton] at ha
      exact ⟨e.1, f, ha, ⟨e.2, he, hf⟩, hex⟩
  · rintro ⟨c, f, rfl, ⟨feeds, he, hf⟩, hex⟩
    exact ⟨(c, feeds), he, f, hf, by simp [hex]⟩

theorem mem_updateFeedActions (loc remote : State) (a : Action) :
    a ∈ updateFeedActions loc remote ↔
      ∃ c f, a = Action.updateFeed c f.URL f.Options ∧ loc.HasFeed c f ∧
        remote.FeedExists f.URL c = true ∧
        needsUpdate f.Options (remote.GetFeedOptions f.URL) = true := by
  simp only [updateFeedActions, List.mem_flatMap, Action.updateFeed, HasFeed_iff_mem]
  constructor
  · rintro ⟨e, he, f, hf, ha⟩
    by_cases hex : remote.FeedExists f.URL e.1 = true
    · by_cases hn : needsUpdate f.Options (remote.GetFeedOptions f.URL) = true
      · simp only [hex, hn, if_true, List.mem_singleton] at ha
        exact ⟨e.1, f, ha, ⟨e.2, he, hf⟩, hex, hn⟩
      · simp [hex, hn] at ha
    · simp [hex] at ha
  · rintro ⟨c, f, rfl, ⟨feeds, he, hf⟩, hex, hn⟩
    exact ⟨(c, feeds), he, f, hf, by simp [hex, hn]⟩

/-! ## Lemmas on the sort -/

theorem toList_ne_of_ne (x y : String) (h : x ≠ y) : x.toList ≠ y.toList :=
  fun he => h (String.ext he)

theorem Less_iff_sortKey (a b : Action) :
    ActionSorter.Less a b = true ↔ a.sortKey < b.sortKey := by
  unfold ActionSorter.Less Action.sortKey
  rw [Prod.Lex.lt_iff, Prod.Lex.lt_iff]
  by_cases hp : actionPriority a.Typ = actionPriority b.Typ
  · by_cases hc : a.CategoryTitle = b.CategoryTitle
    · simp [hp, hc]
    · have hc' := toList_ne_of_ne _ _ hc
      simp only [hp, hc, ne_eq, not_true_eq_false, not_false_eq_true, if_true, if_false,
        decide_eq_true_eq, lt_self_iff_false, false_or, true_and]
      constructor
      · intro h
        exact Or.inl h
      · rintro (h | ⟨h, -⟩)
        · exact h
        · exact absurd h hc'
  · simp [hp]

theorem Less_eq_false_iff (a b : Action) :
    ActionSorter.Less b a = false ↔ a.sortKey ≤ b.sortKey := by
  rw [← not_lt, ← Less_iff_sortKey]
  simp

theorem priority_le_of_sortKey_le (a b : Action) (h : a.sortKey ≤ b.sortKey) :
    actionPriority a.Typ ≤ actionPriority b.Typ := by
  unfold Action.sortKey at h
  rw [Prod.Lex.le_iff] at h
  rcases h with h | ⟨h, -⟩
  · exact Nat.le_of_lt h
  · exact Nat.le_of_eq h

instance sortRel_total : IsTotal Action (fun a b => ActionSorter.Less b a = false) :=
  ⟨fun a b => by
    simp only [Less_eq_false_iff]
    exact le_total _ _⟩

instance sortRel_trans : IsTrans Action (fun a b => ActionSorter.Less b a = false) :=
  ⟨fun a b c => by
    simp only [Less_eq_false_iff]
    exact le_trans⟩

theorem sortActions_perm (l : List Action) : (sortActions l).Perm l :=
  List.perm_insertionSort _ l

theorem mem_sortActions (l : List Action) (a : Action) : a ∈ sortActions l ↔ a ∈ l :=
  (sortActions_perm l).mem_iff

theorem sortActions_sorted (l : List Action) :
    (sortActions l).Pairwise fun a b => actionPriority a.Typ ≤ actionPriority b.Typ := by
  have h := List.sorted_insertionSort (fun a b : Action => ActionSorter.Less b a = false) l
  exact List.Pairwise.imp
    (fun {a b} hab => priority_le_of_sortKey_le a b ((Less_eq_false_iff a b).1 hab)) h

theorem allBefore_of_sorted (first second : ActionType)
    (hlt : actionPriority first < actionPriority second) (l : List Action)
    (hs : l.Pairwise fun a b => actionPriority a.Typ ≤ actionPriority b.Typ) :
    AllBefore first second l := by
  intro i j hi hj hfirst hsecond
  by_contra hnot
  have hji : j ≤ i := Nat.le_of_not_lt hnot
  rcases Nat.lt_or_eq_of_le hji with hlt' | heq
  · have hrel := List.pairwise_iff_get.1 hs ⟨j, hj⟩ ⟨i, hi⟩ hlt'
    rw [hfirst, hsecond] at hrel
    omega
  · subst heq
    rw [hfirst] at hsecond
    rw [hsecond] at hlt
    exact Nat.lt_irrefl _ hlt

theorem allBefore_CalculateDiff (first second : ActionType)
    (hlt : actionPriority first < actionPriority second) (loc remote : State) :
    AllBefore first second (CalculateDiff loc remote).1 :=
  allBefore_of_sorted first second hlt _ (sortActions_sorted _)

/-! ## Membership in the result of `CalculateDiff` -/

theorem mem_CalculateDiff (loc remote : State) (a : Action) :
    a ∈ (CalculateDiff loc remote).1 ↔
      a ∈ deleteFeedActions loc remote ∨ a ∈ deleteCategoryActions loc remote ∨
      a ∈ createCategoryActions loc remote ∨ a ∈ createFeedActions loc remote ∨
      a ∈ updateFeedActions loc remote := by
  simp only [CalculateDiff, mem_sortActions, appendedActions, List.mem_append, or_assoc]

theorem deleteFeed_mem_iff (loc remote : State) (c u : String) :
    Action.deleteFeed c u ∈ (CalculateDiff loc remote).1 ↔
      remote.HasURL c u ∧ loc.FeedExists u c = false := by
  rw [mem_CalculateDiff, mem_deleteFeedActions, mem_deleteCategoryActions,
    mem_createCategoryActions, mem_createFeedActions, mem_updateFeedActions]
  constructor
  · rintro (⟨c', u', he, h⟩ | ⟨t, he, -⟩ | ⟨t, he, -⟩ | ⟨c', f, he, -⟩ | ⟨c', f, he, -⟩)
    · cases he
      exact h
    all_goals cases he
  · intro h
    exact Or.inl ⟨c, u, rfl, h⟩

theorem deleteCategory_mem_iff (loc remote : State) (t : String) :
    Action.deleteCategory t ∈ (CalculateDiff loc remote).1 ↔
      remote.IsCategory t ∧ ¬ loc.IsCategory t := by
  rw [mem_CalculateDiff, mem_deleteFeedActions, mem_deleteCategoryActions,
    mem_createCategoryActions, mem_createFeedActions, mem_updateFeedActions]
  constructor
  · rintro (⟨c', u', he, -⟩ | ⟨t', he, h⟩ | ⟨t', he, -⟩ | ⟨c', f, he, -⟩ | ⟨c', f, he, -⟩)
    · cases he
    · cases he
      exact h
    all_goals cases he
  · intro h
    exact Or.inr (Or.inl ⟨t, rfl, h⟩)

theorem createCategory_mem_iff (loc remote : State) (t : String) :
    Action.createCategory t ∈ (CalculateDiff loc remote).1 ↔
      loc.IsCategory t ∧ ¬ remote.IsCategory t := by
  rw [mem_CalculateDiff, mem_deleteFeedActions, mem_deleteCategoryActions,
    mem_createCategoryActions, mem_createFeedActions, mem_updateFeedActions]
  constructor
  · rintro (⟨c', u', he, -⟩ | ⟨t', he, -⟩ | ⟨t', he, h⟩ | ⟨c', f, he, -⟩ | ⟨c', f, he, -⟩)
    · cases he
    · cases he
    · cases he
      exact h
    all_goals cases he
  · intro h
    exact Or.inr (Or.inr (Or.inl ⟨t, rfl, h⟩))

theorem createFeed_mem_iff (loc remote : State) (c u : String) (o : FeedOptions) :
    Action.createFeed c u o ∈ (CalculateDiff loc remote).1 ↔
      loc.HasFeed c { URL := u, Options := o } ∧ remote.FeedExists u c = false := by
  rw [mem_CalculateDiff, mem_deleteFeedActions, mem_deleteCategoryActions,
    mem_createCategoryActions, mem_createFeedActions, mem_updateFeedActions]
  constructor
  · rintro (⟨c', u', he, -⟩ | ⟨t', he, -⟩ | ⟨t', he, -⟩ | ⟨c', f, he, h⟩ | ⟨c', f, he, -⟩)
    · cases he
    · cases he
    · cases he
    · cases he
      exact h
    · cases he
  · intro h
    exact Or.inr (Or.inr (Or.inr (Or.inl ⟨c, { URL := u, Options := o }, rfl, h⟩)))

theorem updateFeed_mem_iff (loc remote : State) (c u : String) (o : FeedOptions) :
    Action.updateFeed c u o ∈ (CalculateDiff loc remote).1 ↔
      loc.HasFeed c { URL := u, Options := o } ∧ remote.FeedExists u c = true ∧
        needsUpdate o (remote.GetFeedOptions u) = true := by
  rw [mem_CalculateDiff, mem_deleteFeedActions, mem_deleteCategoryActions,
    mem_createCategoryActions, mem_createFeedActions, mem_updateFeedActions]
  constructor
  · rintro (⟨c', u', he, -⟩ | ⟨t', he, -⟩ | ⟨t', he, -⟩ | ⟨c', f, he, -⟩ | ⟨c', f, he, h⟩)
    · cases he
    · cases he
    · cases he
    · cases he
    · cases he
      exact h
  · intro h
    exact Or.inr (Or.inr (Or.inr (Or.inr ⟨c, { URL := u, Options := o }, rfl, h⟩)))

/-! ## Lemmas on `needsUpdate`, `GetFeedOptions` and `GetFeedsByCategory` -/

theorem not_attrAgrees {α : Type} (a b : Option α) : ¬ AttrAgrees a b ↔ AttrDiffers a b := by
  unfold AttrAgrees AttrDiffers
  exact Classical.not_imp

theorem isEmpty_eq_false_iff (o : FeedOptions) : o.IsEmpty = false ↔ SomeAttrSet o := by
  rw [← Bool.not_eq_true, isEmpty_iff]
  unfold SomeAttrSet
  simp only [not_and_or, ne_eq]

theorem Equal_eq_false_iff (o r : FeedOptions) : o.Equal r = false ↔ SomeAttrDiffers o r := by
  rw [← Bool.not_eq_true, Equal_iff_EqualSpec]
  unfold EqualSpec SomeAttrDiffers
  simp only [not_and_or, not_attrAgrees]

theorem needsUpdate_iff (o r : FeedOptions) :
    needsUpdate o r = true ↔ SomeAttrSet o ∧ SomeAttrDiffers o r := by
  rw [← isEmpty_eq_false_iff, ← Equal_eq_false_iff]
  unfold needsUpdate
  cases o.IsEmpty <;> simp

theorem needsUpdate_of_isEmpty (o r : FeedOptions) (h : o.IsEmpty = true) :
    needsUpdate o r = false := by
  simp [needsUpdate, h]

theorem findFeedOptions_eq (u : String) (feeds : List Feed) :
    findFeedOptions u feeds = (feeds.find? fun f => f.URL == u).map Feed.Options := by
  induction feeds with
  | nil => rfl
  | cons f rest ih =>
    by_cases h : (f.URL == u) = true
    · simp [findFeedOptions, List.find?_cons, h]
    · simp only [Bool.not_eq_true] at h
      simp [findFeedOptions, List.find?_cons, h, ih]

theorem findFeedOptionsInCategories_eq (u : String) (entries : List (String × List Feed)) :
    findFeedOptionsInCategories u entries =
      ((entries.flatMap Prod.snd).find? fun f => f.URL == u).map Feed.Options := by
  induction entries with
  | nil => rfl
  | cons e rest ih =>
    rw [findFeedOptionsInCategories, findFeedOptions_eq, List.flatMap_cons,
      List.find?_append, ih]
    cases List.find? (fun f => f.URL == u) e.2 <;> simp

/-- All feeds of `FeedsByCategoryTitle`, category after category. -/
theorem mem_allFeeds (s : State) (f : Feed) :
    f ∈ s.FeedsByCategoryTitle.entries.flatMap Prod.snd ↔
      ∃ c feeds, (c, feeds) ∈ s.FeedsByCategoryTitle.entries ∧ f ∈ feeds := by
  simp only [List.mem_flatMap]
  constructor
  · rintro ⟨e, he, hf⟩
    exact ⟨e.1, e.2, he, hf⟩
  · rintro ⟨c, feeds, he, hf⟩
    exact ⟨(c, feeds), he, hf⟩

theorem feed_eq_of_url_eq (s : State) (hu : s.UniqueURLs) (f g : Feed)
    (hf : f ∈ s.FeedsByCategoryTitle.entries.flatMap Prod.snd)
    (hg : g ∈ s.FeedsByCategoryTitle.entries.flatMap Prod.snd)
    (h : f.URL = g.URL) : f = g := by
  unfold State.UniqueURLs at hu
  rw [← List.map_flatMap] at hu
  exact List.inj_on_of_nodup_map hu hf hg h

theorem GetFeedOptions_of_mem (s : State) (hu : s.UniqueURLs) (f : Feed)
    (hf : f ∈ s.FeedsByCategoryTitle.entries.flatMap Prod.snd) :
    s.GetFeedOptions f.URL = f.Options := by
  unfold State.GetFeedOptions
  rw [findFeedOptionsInCategories_eq]
  cases hfind : (s.FeedsByCategoryTitle.entries.flatMap Prod.snd).find?
      (fun g => g.URL == f.URL) with
  | none =>
    rw [List.find?_eq_none] at hfind
    exact absurd (by simp) (hfind f hf)
  | some g =>
    have hg := List.mem_of_find?_eq_some hfind
    have hurl : g.URL = f.URL := by simpa using List.find?_some hfind
    rw [feed_eq_of_url_eq s hu g f hg hf hurl]
    rfl

theorem GetFeedOptions_of_not_mem (s : State) (u : String)
    (hno : ∀ f ∈ s.FeedsByCategoryTitle.entries.flatMap Prod.snd, f.URL ≠ u) :
    s.GetFeedOptions u = {} := by
  unfold State.GetFeedOptions
  rw [findFeedOptionsInCategories_eq]
  have hfind : (s.FeedsByCategoryTitle.entries.flatMap Prod.snd).find?
      (fun g => g.URL == u) = none := by
    rw [List.find?_eq_none]
    intro f hf
    simpa using hno f hf
  rw [hfind]
  rfl

theorem HasFeed_cases (s : State) (c : String) (f : Feed) :
    s.HasFeed c f ↔
      (0 < s.FeedsByCategoryTitle.len ∧
        ∃ feeds, (c, feeds) ∈ s.FeedsByCategoryTitle.entries ∧ f ∈ feeds) ∨
      (s.FeedsByCategoryTitle.len = 0 ∧ f.Options = {} ∧ s.HasURL c f.URL) := by
  rw [HasFeed_iff_mem]
  unfold State.GetFeedsByCategory
  by_cases hlen : s.FeedsByCategoryTitle.len > 0
  · rw [if_pos hlen]
    constructor
    · intro h
      exact Or.inl ⟨hlen, h⟩
    · rintro (⟨-, h⟩ | ⟨h0, -⟩)
      · exact h
      · omega
  · rw [if_neg hlen]
    have h0 : s.FeedsByCategoryTitle.len = 0 := by omega
    simp only [State.HasURL, GoMap.get?_eq_some_iff, feedsOfURLs, List.mem_map]
    constructor
    · rintro ⟨feeds, ⟨e, he, heq⟩, hf⟩
      cases heq
      obtain ⟨url, hurl, rfl⟩ := List.mem_map.1 hf
      exact Or.inr ⟨h0, rfl, e.2, he, hurl⟩
    · rintro (⟨hpos, -⟩ | ⟨-, hopt, feedURLs, he, hurl⟩)
      · omega
      · refine ⟨feedURLs.map fun url => ({ URL := url } : Feed), ⟨(c, feedURLs), he, rfl⟩, ?_⟩
        refine List.mem_map.2 ⟨f.URL, hurl, ?_⟩
        cases f
        simp only at hopt
        rw [hopt]

theorem FeedExists_of_HasFeed (s : State) (hp : s.URLsProjectFeeds) (c : String) (f : Feed)
    (h : s.HasFeed c f) : s.FeedExists f.URL c = true := by
  rw [FeedExists_iff]
  rcases (HasFeed_cases s c f).1 h with ⟨-, feeds, he, hf⟩ | ⟨-, -, hurl⟩
  · refine ⟨feeds.map Feed.URL, ?_, List.mem_map_of_mem Feed.URL hf⟩
    rw [GoMap.get?_eq_some_iff]
    exact hp.mem_iff.2 (List.mem_map.2 ⟨(c, feeds), he, rfl⟩)
  · exact hurl

theorem needsUpdate_own_options (s : State) (hu : s.UniqueURLs) (c : String) (f : Feed)
    (h : s.HasFeed c f) : needsUpdate f.Options (s.GetFeedOptions f.URL) = false := by
  rcases (HasFeed_cases s c f).1 h with ⟨-, feeds, he, hf⟩ | ⟨-, hopt, -⟩
  · rw [GetFeedOptions_of_mem s hu f ((mem_allFeeds s f).2 ⟨c, feeds, he, hf⟩)]
    exact needsUpdate_self _
  · rw [hopt]
    rfl

theorem appendedActions_self (s : State) (hs : s.WellFormed) : appendedActions s s = [] := by
  apply List.eq_nil_iff_forall_not_mem.2
  intro a ha
  simp only [appendedActions, List.mem_append, mem_deleteFeedActions,
    mem_deleteCategoryActions, mem_createCategoryActions, mem_createFeedActions,
    mem_updateFeedActions] at ha
  rcases ha with (((⟨c, u, -, hurl, hex⟩ | ⟨t, -, h1, h2⟩) | ⟨t, -, h1, h2⟩) |
    ⟨c, f, -, hf, hex⟩) | ⟨c, f, -, hf, -, hn⟩
  · rw [(FeedExists_iff s u c).2 hurl] at hex
    cases hex
  · exact h2 h1
  · exact h2 h1
  · rw [FeedExists_of_HasFeed s hs.1 c f hf] at hex
    cases hex
  · rw [needsUpdate_own_options s hs.2 c f hf] at hn
    cases hn

/-! ## Multiplicity of category creations -/

theorem createCategoryActions_nodup (loc remote : State) :
    (createCategoryActions loc remote).Nodup := by
  unfold createCategoryActions
  rw [List.nodup_flatMap]
  constructor
  · intro e _
    split <;> simp
  · have hkeys := loc.FeedURLsByCategoryTitle.nodup
    rw [List.Nodup, List.pairwise_map] at hkeys
    refine hkeys.imp ?_
    intro a b hab
    simp only [Function.onFun]
    split <;> split <;> simp [Ne.symm hab]

theorem count_createCategory (loc remote : State) (t : String)
    (h : Action.createCategory t ∈ (CalculateDiff loc remote).1) :
    (CalculateDiff loc remote).1.count (Action.createCategory t) = 1 := by
  have hmem : Action.createCategory t ∈ createCategoryActions loc remote :=
    (mem_createCategoryActions loc remote _).2
      ⟨t, rfl, (createCategory_mem_iff loc remote t).1 h⟩
  have h1 : (deleteFeedActions loc remote).count (Action.createCategory t) = 0 := by
    apply List.count_eq_zero_of_not_mem
    rw [mem_deleteFeedActions]
    rintro ⟨c, u, he, -⟩
    cases he
  have h2 : (deleteCategoryActions loc remote).count (Action.createCategory t) = 0 := by
    apply List.count_eq_zero_of_not_mem
    rw [mem_deleteCategoryActions]
    rintro ⟨c, he, -⟩
    cases he
  have h3 : (createFeedActions loc remote).count (Action.createCategory t) = 0 := by
    apply List.count_eq_zero_of_not_mem
    rw [mem_createFeedActions]
    rintro ⟨c, f, he, -⟩
    cases he
  have h4 : (updateFeedActions loc remote).count (Action.createCategory t) = 0 := by
    apply List.count_eq_zero_of_not_mem
    rw [mem_updateFeedActions]
    rintro ⟨c, f, he, -⟩
    cases he
  have h5 := List.count_eq_one_of_mem (createCategoryActions_nodup loc remote) hmem
  show (sortActions (appendedActions loc remote)).count (Action.createCategory t) = 1
  rw [(sortActions_perm _).count_eq, appendedActions, List.count_append, List.count_append,
    List.count_append, List.count_append, h1, h2, h3, h4, h5]

theorem updateFeed_of_typ (loc remote : State) (a : Action)
    (ha : a ∈ (CalculateDiff loc remote).1) (ht : a.Typ = .UpdateFeed) :
    ∃ c f, a = Action.updateFeed c f.URL f.Options ∧ loc.HasFeed c f ∧
      remote.FeedExists f.URL c = true ∧
      needsUpdate f.Options (remote.GetFeedOptions f.URL) = true := by
  rw [mem_CalculateDiff, mem_deleteFeedActions, mem_deleteCategoryActions,
    mem_createCategoryActions, mem_createFeedActions, mem_updateFeedActions] at ha
  rcases ha with ⟨c, u, rfl, -⟩ | ⟨t, rfl, -⟩ | ⟨t, rfl, -⟩ | ⟨c, f, rfl, -⟩ | h
  · cases ht
  · cases ht
  · cases ht
  · cases ht
  · exact h

theorem no_update_for_empty_feed (loc remote : State) (hu : loc.UniqueURLs) (c u : String)
    (o : FeedOptions) (hfeed : loc.HasFeed c { URL := u, Options := o })
    (hempty : o.IsEmpty = true) (a : Action) (ha : a ∈ (CalculateDiff loc remote).1)
    (ht : a.Typ = .UpdateFeed) : a.FeedURL ≠ u := by
  obtain ⟨c', f, rfl, hf, -, hn⟩ := updateFeed_of_typ loc remote a ha ht
  intro hurl
  have hurl' : f.URL = u := hurl
  rcases (HasFeed_cases loc c' f).1 hf with ⟨-, feeds', he', hf'⟩ | ⟨h0, hopt, -⟩
  · rcases (HasFeed_cases loc c _).1 hfeed with ⟨-, feeds, he, hmem⟩ | ⟨h0, -, -⟩
    · have heq := feed_eq_of_url_eq loc hu f { URL := u, Options := o }
        ((mem_allFeeds loc f).2 ⟨c', feeds', he', hf'⟩)
        ((mem_allFeeds loc _).2 ⟨c, feeds, he, hmem⟩) hurl'
      rw [heq, needsUpdate_of_isEmpty o _ hempty] at hn
      cases hn
    · have hpos : 0 < loc.FeedsByCategoryTitle.len :=
        List.length_pos_of_mem he'
      omega
  · rw [hopt] at hn
    cases hn

theorem update_options_not_empty (loc remote : State) (a : Action)
    (ha : a ∈ (CalculateDiff loc remote).1) (ht : a.Typ = .UpdateFeed) :
    a.FeedOptions.IsEmpty = false := by
  obtain ⟨c', f, rfl, -, -, hn⟩ := updateFeed_of_typ loc remote a ha ht
  show f.Options.IsEmpty = false
  cases hempty : f.Options.IsEmpty
  · rfl
  · rw [needsUpdate_of_isEmpty _ _ hempty] at hn
    cases hn

/-! ## Independence of the enumeration order -/

theorem sortActions_eq_foldr (l : List Action) : sortActions l = l.foldr insertAction [] := by
  induction l with
  | nil => rfl
  | cons a l ih =>
    show insertAction a (sortActions l) = _
    rw [ih]
    rfl

theorem insertAction_cons (a b : Action) (l : List Action) :
    insertAction a (b :: l) = if a.sortKey ≤ b.sortKey then a :: b :: l else b :: insertAction a l := by
  unfold insertAction
  simp only [List.orderedInsert, Less_eq_false_iff]

theorem insertAction_comm_of_lt (a b : Action) (h : a.sortKey < b.sortKey) (s : List Action) :
    insertAction a (insertAction b s) = insertAction b (insertAction a s) := by
  have hba : ¬ b.sortKey ≤ a.sortKey := not_le.2 h
  induction s with
  | nil =>
    simp [insertAction, Less_eq_false_iff, le_of_lt h, hba]
  | cons c s ih =>
    rw [insertAction_cons b c, insertAction_cons a c]
    by_cases hbc : b.sortKey ≤ c.sortKey
    · have hac : a.sortKey ≤ c.sortKey := le_trans (le_of_lt h) hbc
      rw [if_pos hbc, if_pos hac, insertAction_cons, if_pos (le_of_lt h), insertAction_cons,
        if_neg hba, insertAction_cons, if_pos hbc]
    · rw [if_neg hbc]
      by_cases hac : a.sortKey ≤ c.sortKey
      · rw [if_pos hac, insertAction_cons, if_pos hac, insertAction_cons, if_neg hba,
          insertAction_cons, if_neg hbc]
      · rw [if_neg hac, insertAction_cons, if_neg hac, insertAction_cons, if_neg hbc, ih]

theorem insertAction_comm (a b : Action) (h : a.sortKey ≠ b.sortKey) (s : List Action) :
    insertAction a (insertAction b s) = insertAction b (insertAction a s) := by
  rcases lt_or_gt_of_ne h with hlt | hgt
  · exact insertAction_comm_of_lt a b hlt s
  · exact (insertAction_comm_of_lt b a hgt s).symm

theorem insertAction_foldr (a : Action) (Q : List Action)
    (h : ∀ b ∈ Q, a.sortKey ≠ b.sortKey) (s : List Action) :
    insertAction a (Q.foldr insertAction s) = Q.foldr insertAction (insertAction a s) := by
  induction Q with
  | nil => rfl
  | cons q Q ih =>
    rw [List.foldr_cons, List.foldr_cons,
      insertAction_comm a q (h q (List.mem_cons_self q Q)),
      ih (fun b hb => h b (List.mem_cons_of_mem q hb))]

theorem foldr_insertAction_append_comm (P Q : List Action)
    (h : ∀ a ∈ P, ∀ b ∈ Q, a.sortKey ≠ b.sortKey) (s : List Action) :
    (P ++ Q).foldr insertAction s = (Q ++ P).foldr insertAction s := by
  induction P with
  | nil => simp
  | cons p P ih =>
    rw [List.cons_append, List.foldr_cons,
      ih (fun a ha b hb => h a (List.mem_cons_of_mem p ha) b hb),
      List.foldr_append, List.foldr_append, List.foldr_cons,
      insertAction_foldr p Q (fun b hb => h p (List.mem_cons_self p P) b hb)]

theorem sortKey_ne_of_title_ne (a b : Action) (h : a.CategoryTitle ≠ b.CategoryTitle) :
    a.sortKey ≠ b.sortKey := by
  intro he
  unfold Action.sortKey at he
  have h1 := congrArg (fun k => (ofLex (ofLex k).2).1) he
  exact toList_ne_of_ne _ _ h h1

theorem foldr_insertAction_flatMap_perm {V : Type} (f : String × V → List Action)
    (hf : ∀ e, ∀ a ∈ f e, a.CategoryTitle = e.1) {l l' : List (String × V)}
    (h : l.Perm l') (hn : (l.map Prod.fst).Nodup) (s : List Action) :
    (l.flatMap f).foldr insertAction s = (l'.flatMap f).foldr insertAction s := by
  induction h generalizing s with
  | nil => rfl
  | cons x _ ih =>
    rw [List.map_cons, List.nodup_cons] at hn
    rw [List.flatMap_cons, List.flatMap_cons, List.foldr_append, List.foldr_append, ih hn.2]
  | swap x y l =>
    have hxy : y.1 ≠ x.1 := by
      simp only [List.map_cons, List.nodup_cons, List.mem_cons, not_or] at hn
      exact hn.1.1
    have key := foldr_insertAction_append_comm (f y) (f x)
      (fun a ha b hb => sortKey_ne_of_title_ne a b (by rw [hf y a ha, hf x b hb]; exact hxy))
      ((l.flatMap f).foldr insertAction s)
    simpa only [List.flatMap_cons, List.foldr_append] using key
  | trans h1 _ ih1 ih2 =>
    rw [ih1 hn, ih2 ((h1.map Prod.fst).nodup_iff.1 hn)]


theorem GoMap.get?_congr {V : Type} {m m' : GoMap V} (h : m.SameEntries m') (k : String) :
    m.get? k = m'.get? k := by
  apply Option.ext
  intro v
  simp only [Option.mem_def, GoMap.get?_eq_some_iff]
  exact h.mem_iff

theorem FeedExists_congr {s s' : State} (h : s.SameMaps s') (u c : String) :
    s.FeedExists u c = s'.FeedExists u c := by
  unfold State.FeedExists
  rw [GoMap.get?_congr h.1]

theorem CategoryExists_congr {s s' : State} (h : s.SameMaps s') (c : String) :
    s.CategoryExists c = s'.CategoryExists c := by
  unfold State.CategoryExists
  rw [GoMap.get?_congr h.1]

theorem GetFeedsByCategory_congr {s s' : State} (h : s.SameMaps s') :
    s.GetFeedsByCategory.SameEntries s'.GetFeedsByCategory := by
  unfold State.GetFeedsByCategory GoMap.SameEntries GoMap.len
  rw [← h.2.length_eq]
  by_cases hlen : s.FeedsByCategoryTitle.entries.length > 0
  · rw [if_pos hlen, if_pos hlen]
    exact h.2
  · rw [if_neg hlen, if_neg hlen]
    exact h.1.map _

theorem allFeeds_perm {s s' : State} (h : s.SameMaps s') :
    (s.FeedsByCategoryTitle.entries.flatMap Prod.snd).Perm
      (s'.FeedsByCategoryTitle.entries.flatMap Prod.snd) :=
  List.Perm.flatMap_right _ h.2

theorem UniqueURLs_congr {s s' : State} (h : s.SameMaps s') (hu : s.UniqueURLs) :
    s'.UniqueURLs := by
  unfold State.UniqueURLs at hu ⊢
  exact (List.Perm.flatMap_right _ h.2).nodup_iff.1 hu

theorem GetFeedOptions_congr {s s' : State} (h : s.SameMaps s') (hu : s.UniqueURLs)
    (u : String) : s.GetFeedOptions u = s'.GetFeedOptions u := by
  by_cases hex : ∃ f ∈ s.FeedsByCategoryTitle.entries.flatMap Prod.snd, f.URL = u
  · obtain ⟨f, hf, rfl⟩ := hex
    rw [GetFeedOptions_of_mem s hu f hf,
      GetFeedOptions_of_mem s' (UniqueURLs_congr h hu) f ((allFeeds_perm h).mem_iff.1 hf)]
  · have hno : ∀ f ∈ s.FeedsByCategoryTitle.entries.flatMap Prod.snd, f.URL ≠ u :=
      fun f hf he => hex ⟨f, hf, he⟩
    rw [GetFeedOptions_of_not_mem s u hno,
      GetFeedOptions_of_not_mem s' u
        (fun f hf => hno f ((allFeeds_perm h).mem_iff.2 hf))]

theorem foldr_deleteFeedActions_congr {loc loc' remote remote' : State}
    (hl : loc.SameMaps loc') (hr : remote.SameMaps remote') (s : List Action) :
    (deleteFeedActions loc remote).foldr insertAction s =
      (deleteFeedActions loc' remote').foldr insertAction s := by
  unfold deleteFeedActions
  simp only [FeedExists_congr hl]
  apply foldr_insertAction_flatMap_perm _ _ hr.1 remote.FeedURLsByCategoryTitle.nodup
  intro e a ha
  obtain ⟨u, -, hu⟩ := List.mem_flatMap.1 ha
  split at hu
  · rw [List.mem_singleton.1 hu]
  · cases hu

theorem foldr_deleteCategoryActions_congr {loc loc' remote remote' : State}
    (hl : loc.SameMaps loc') (hr : remote.SameMaps remote') (s : List Action) :
    (deleteCategoryActions loc remote).foldr insertAction s =
      (deleteCategoryActions loc' remote').foldr insertAction s := by
  unfold deleteCategoryActions
  simp only [CategoryExists_congr hl]
  apply foldr_insertAction_flatMap_perm _ _ hr.1 remote.FeedURLsByCategoryTitle.nodup
  intro e a ha
  split at ha
  · rw [List.mem_singleton.1 ha]
  · cases ha

theorem foldr_createCategoryActions_congr {loc loc' remote remote' : State}
    (hl : loc.SameMaps loc') (hr : remote.SameMaps remote') (s : List Action) :
    (createCategoryActions loc remote).foldr insertAction s =
      (createCategoryActions loc' remote').foldr insertAction s := by
  unfold createCategoryActions
  simp only [CategoryExists_congr hr]
  apply foldr_insertAction_flatMap_perm _ _ hl.1 loc.FeedURLsByCategoryTitle.nodup
  intro e a ha
  split at ha
  · rw [List.mem_singleton.1 ha]
  · cases ha

theorem foldr_createFeedActions_congr {loc loc' remote remote' : State}
    (hl : loc.SameMaps loc') (hr : remote.SameMaps remote') (s : List Action) :
    (createFeedActions loc remote).foldr insertAction s =
      (createFeedActions loc' remote').foldr insertAction s := by
  unfold createFeedActions
  simp only [FeedExists_congr hr]
  apply foldr_insertAction_flatMap_perm _ _ (GetFeedsByCategory_congr hl)
    loc.GetFeedsByCategory.nodup
  intro e a ha
  obtain ⟨f, -, hf⟩ := List.mem_flatMap.1 ha
  split at hf
  · rw [List.mem_singleton.1 hf]
  · cases hf

theorem foldr_updateFeedActions_congr {loc loc' remote remote' : State}
    (hl : loc.SameMaps loc') (hr : remote.SameMaps remote') (hu : remote.UniqueURLs)
    (s : List Action) :
    (updateFeedActions loc remote).foldr insertAction s =
      (updateFeedActions loc' remote').foldr insertAction s := by
  unfold updateFeedActions
  simp only [FeedExists_congr hr, GetFeedOptions_congr hr hu]
  apply foldr_insertAction_flatMap_perm _ _ (GetFeedsByCategory_congr hl)
    loc.GetFeedsByCategory.nodup
  intro e a ha
  obtain ⟨f, -, hf⟩ := List.mem_flatMap.1 ha
  split at hf
  · split at hf
    · rw [List.mem_singleton.1 hf]
    · cases hf
  · cases hf

theorem CalculateDiff_congr {loc loc' remote remote' : State}
    (hl : loc.SameMaps loc') (hr : remote.SameMaps remote') (hu : remote.UniqueURLs) :
    CalculateDiff loc remote = CalculateDiff loc' remote' := by
  unfold CalculateDiff
  rw [sortActions_eq_foldr, sortActions_eq_foldr]
  unfold appendedActions
  simp only [List.foldr_append]
  rw [foldr_updateFeedActions_congr hl hr hu, foldr_createFeedActions_congr hl hr,
    foldr_createCategoryActions_congr hl hr, foldr_deleteCategoryActions_congr hl hr,
    foldr_deleteFeedActions_congr hl hr]

theorem sortActions_sortKey (l : List Action) :
    (sortActions l).Pairwise fun a b => a.sortKey ≤ b.sortKey := by
  have h := List.sorted_insertionSort (fun a b : Action => ActionSorter.Less b a = false) l
  exact List.Pairwise.imp (fun {a b} hab => (Less_eq_false_iff a b).1 hab) h

/-! ## Lemmas on `Parse` -/

theorem lookup_of_not_mem_keys {V : Type} (l : List (String × V)) (k : String)
    (hk : k ∉ l.map Prod.fst) : l.lookup k = none := by
  rw [List.lookup_eq_none_iff]
  intro p hp
  have : ¬ k = p.1 := fun he => hk (he ▸ List.mem_map_of_mem Prod.fst hp)
  simpa using this

theorem lookup_append_last {V : Type} (l : List (String × V)) (k : String) (v : V)
    (hk : k ∉ l.map Prod.fst) : (l ++ [(k, v)]).lookup k = some v := by
  induction l with
  | nil => simp [List.lookup]
  | cons p l ih =>
    rw [List.map_cons, List.mem_cons, not_or] at hk
    have hb : (k == p.1) = false := by simpa using hk.1
    rw [List.cons_append, List.lookup_cons, hb]
    exact ih hk.2

theorem setEntry_of_not_mem {V : Type} (l : List (String × V)) (k : String) (v : V)
    (hk : k ∉ l.map Prod.fst) : setEntry k v l = l ++ [(k, v)] := by
  unfold setEntry
  rw [if_neg hk]

theorem setEntry_append_last {V : Type} (l : List (String × V)) (k : String) (v w : V)
    (hk : k ∉ l.map Prod.fst) : setEntry k v (l ++ [(k, w)]) = l ++ [(k, v)] := by
  unfold setEntry
  rw [if_pos (by simp), List.map_append]
  congr 1
  · nth_rewrite 2 [← List.map_id l]
    apply List.map_congr_left
    intro e he
    have : e.1 ≠ k := fun h => hk (h ▸ List.mem_map_of_mem Prod.fst he)
    simp [this]
  · simp

theorem appendLoop_entries_last {α W : Type} (g : α → W) (k : String) :
    ∀ (es : List α) (m : GoMap (List W)) (l : List (String × List W)) (acc : List W),
      m.entries = l ++ [(k, acc)] → k ∉ l.map Prod.fst →
      (es.foldl (fun m' entry => m'.set k (m'.getD k [] ++ [g entry])) m).entries =
        l ++ [(k, acc ++ es.map g)] := by
  intro es
  induction es with
  | nil =>
    intro m l acc hm _
    simpa using hm
  | cons e es ih =>
    intro m l acc hm hk
    rw [List.foldl_cons]
    have hget : m.getD k [] = acc := by
      unfold GoMap.getD GoMap.get?
      rw [hm, lookup_append_last l k acc hk]
    have hset : (m.set k (m.getD k [] ++ [g e])).entries = l ++ [(k, acc ++ [g e])] := by
      show setEntry k _ m.entries = _
      rw [hm, hget, setEntry_append_last l k _ acc hk]
    rw [ih _ l (acc ++ [g e]) hset hk]
    simp

theorem appendLoop_entries_fresh {α W : Type} (g : α → W) (k : String)
    (es : List α) (m : GoMap (List W)) (hk : k ∉ m.entries.map Prod.fst) :
    (es.foldl (fun m' entry => m'.set k (m'.getD k [] ++ [g entry])) m).entries =
      if es.isEmpty then m.entries else m.entries ++ [(k, es.map g)] := by
  cases es with
  | nil => simp
  | cons e es =>
    rw [List.foldl_cons, List.isEmpty_cons, if_neg Bool.false_ne_true]
    have hget : m.getD k [] = [] := by
      unfold GoMap.getD GoMap.get?
      rw [lookup_of_not_mem_keys m.entries k hk]
    have hset : (m.set k (m.getD k [] ++ [g e])).entries = m.entries ++ [(k, [] ++ [g e])] := by
      show setEntry k _ m.entries = _
      rw [hget, setEntry_of_not_mem m.entries k _ hk]
    rw [appendLoop_entries_last g k es _ m.entries ([] ++ [g e]) hset hk]
    simp

theorem buildLoop_entries {α W : Type} (g : α → W) :
    ∀ (rawData : List (String × List α)) (m : GoMap (List W)),
      (rawData.map Prod.fst).Nodup →
      (∀ k ∈ rawData.map Prod.fst, k ∉ m.entries.map Prod.fst) →
      (rawData.foldl (fun m' e =>
        e.2.foldl (fun m'' entry => m''.set e.1 (m''.getD e.1 [] ++ [g entry])) m') m).entries =
        m.entries ++
          (rawData.filter fun e => !e.2.isEmpty).map fun e => (e.1, e.2.map g) := by
  intro rawData
  induction rawData with
  | nil =>
    intro m _ _
    simp
  | cons e rest ih =>
    intro m hn hfresh
    rw [List.map_cons, List.nodup_cons] at hn
    have hk : e.1 ∉ m.entries.map Prod.fst := hfresh e.1 (by simp)
    have hinner := appendLoop_entries_fresh g e.1 e.2 m hk
    rw [List.foldl_cons]
    have hfresh' : ∀ k ∈ rest.map Prod.fst, k ∉ (e.2.foldl (fun m'' entry =>
        m''.set e.1 (m''.getD e.1 [] ++ [g entry])) m).entries.map Prod.fst := by
      intro k hkrest
      rw [hinner]
      have hkm : k ∉ m.entries.map Prod.fst := hfresh k (List.mem_cons_of_mem _ hkrest)
      have hke : k ≠ e.1 := fun h => hn.1 (h ▸ hkrest)
      split
      · exact hkm
      · simp only [List.map_append, List.map_cons, List.map_nil, List.mem_append,
          List.mem_singleton, not_or]
        exact ⟨hkm, hke⟩
    rw [ih _ hn.2 hfresh', hinner]
    cases hes : e.2 with
    | nil => simp [List.filter_cons, hes]
    | cons x xs => simp [List.filter_cons, hes]

theorem parseInner_urls (k : String) :
    ∀ (es : List feedEntry) (st : State),
      (es.foldl (fun st' entry => parseEntry st' k entry) st).FeedURLsByCategoryTitle =
        es.foldl (fun m' entry => m'.set k (m'.getD k [] ++ [entry.URL]))
          st.FeedURLsByCategoryTitle := by
  intro es
  induction es with
  | nil => intro st; rfl
  | cons e es ih =>
    intro st
    rw [List.foldl_cons, List.foldl_cons, ih]
    rfl

theorem parseInner_feeds (k : String) :
    ∀ (es : List feedEntry) (st : State),
      (es.foldl (fun st' entry => parseEntry st' k entry) st).FeedsByCategoryTitle =
        es.foldl (fun m' entry => m'.set k (m'.getD k [] ++
          [({ URL := entry.URL, Options := entry.Options } : Feed)]))
          st.FeedsByCategoryTitle := by
  intro es
  induction es with
  | nil => intro st; rfl
  | cons e es ih =>
    intro st
    rw [List.foldl_cons, List.foldl_cons, ih]
    rfl

theorem parseLoop_urls :
    ∀ (rawData : List (String × List feedEntry)) (st : State),
      (parseLoop rawData st).FeedURLsByCategoryTitle =
        rawData.foldl (fun m' e =>
          e.2.foldl (fun m'' entry => m''.set e.1 (m''.getD e.1 [] ++ [entry.URL])) m')
          st.FeedURLsByCategoryTitle := by
  intro rawData
  induction rawData with
  | nil => intro st; rfl
  | cons e rest ih =>
    intro st
    unfold parseLoop at ih ⊢
    rw [List.foldl_cons, List.foldl_cons, ih, parseInner_urls]

theorem parseLoop_feeds :
    ∀ (rawData : List (String × List feedEntry)) (st : State),
      (parseLoop rawData st).FeedsByCategoryTitle =
        rawData.foldl (fun m' e =>
          e.2.foldl (fun m'' entry => m''.set e.1 (m''.getD e.1 [] ++
            [({ URL := entry.URL, Options := entry.Options } : Feed)])) m')
          st.FeedsByCategoryTitle := by
  intro rawData
  induction rawData with
  | nil => intro st; rfl
  | cons e rest ih =>
    intro st
    unfold parseLoop at ih ⊢
    rw [List.foldl_cons, List.foldl_cons, ih, parseInner_feeds]

theorem UnmarshalYAML_of_hasURL (node : YAMLEntry) (h : node.hasURL = true) :
    feedEntry.UnmarshalYAML node.unmarshal = .ok node.entry := by
  cases node with
  | scalar url => rfl
  | mapping raw =>
    have hne : (raw.URL == "") = false := by
      simpa [YAMLEntry.hasURL] using h
    simp only [feedEntry.UnmarshalYAML, YAMLEntry.unmarshal, hne]
    rfl

theorem UnmarshalYAML_of_not_hasURL (node : YAMLEntry) (h : node.hasURL = false) :
    feedEntry.UnmarshalYAML node.unmarshal = .error missingURLError := by
  cases node with
  | scalar url => cases h
  | mapping raw =>
    have he : (raw.URL == "") = true := by
      simpa [YAMLEntry.hasURL] using h
    simp only [feedEntry.UnmarshalYAML, YAMLEntry.unmarshal, he]
    rfl

theorem decodeEntries_ok (es : List YAMLEntry) (h : ∀ node ∈ es, node.hasURL = true) :
    decodeEntries es = .ok (es.map YAMLEntry.entry) := by
  induction es with
  | nil => rfl
  | cons node rest ih =>
    rw [decodeEntries, UnmarshalYAML_of_hasURL node (h node (List.mem_cons_self _ _)),
      ih (fun n hn => h n (List.mem_cons_of_mem _ hn))]
    rfl

theorem decodeEntries_error (es : List YAMLEntry) (h : ∃ node ∈ es, node.hasURL = false) :
    decodeEntries es = .error missingURLError := by
  induction es with
  | nil =>
    obtain ⟨node, hmem, -⟩ := h
    cases hmem
  | cons node rest ih =>
    rw [decodeEntries]
    cases hnode : node.hasURL with
    | false =>
      rw [UnmarshalYAML_of_not_hasURL node hnode]
    | true =>
      rw [UnmarshalYAML_of_hasURL node hnode]
      have hrest : ∃ n ∈ rest, n.hasURL = false := by
        obtain ⟨n, hmem, hn⟩ := h
        rcases List.mem_cons.1 hmem with rfl | hmem'
        · rw [hnode] at hn
          cases hn
        · exact ⟨n, hmem', hn⟩
      rw [ih hrest]

theorem decodeCategories_ok (l : List (String × List YAMLEntry))
    (h : ∀ e ∈ l, ∀ node ∈ e.2, node.hasURL = true) :
    decodeCategories l = .ok (l.map fun e => (e.1, e.2.map YAMLEntry.entry)) := by
  induction l with
  | nil => rfl
  | cons e rest ih =>
    rw [decodeCategories, decodeEntries_ok e.2 (h e (List.mem_cons_self _ _)),
      ih (fun e' he' => h e' (List.mem_cons_of_mem _ he'))]
    rfl

theorem decodeCategories_error (l : List (String × List YAMLEntry))
    (h : ∃ e ∈ l, ∃ node ∈ e.2, node.hasURL = false) :
    decodeCategories l = .error missingURLError := by
  induction l with
  | nil =>
    obtain ⟨e, hmem, -⟩ := h
    cases hmem
  | cons e rest ih =>
    rw [decodeCategories]
    by_cases he : ∃ node ∈ e.2, node.hasURL = false
    · rw [decodeEntries_error e.2 he]
    · have hall : ∀ node ∈ e.2, node.hasURL = true := by
        intro node hnode
        cases hn : node.hasURL with
        | false => exact absurd ⟨node, hnode, hn⟩ he
        | true => rfl
      rw [decodeEntries_ok e.2 hall]
      have hrest : ∃ e' ∈ rest, ∃ node ∈ e'.2, node.hasURL = false := by
        obtain ⟨e', hmem, hn⟩ := h
        rcases List.mem_cons.1 hmem with rfl | hmem'
        · exact absurd hn he
        · exact ⟨e', hmem', hn⟩
      rw [ih hrest]

theorem validateURLs_ok (seen us : List String) (hn : us.Nodup) (hs : ∀ u ∈ us, u ∉ seen) :
    validateURLs seen us = .ok (us.reverse ++ seen) := by
  induction us generalizing seen with
  | nil => rfl
  | cons u rest ih =>
    rw [List.nodup_cons] at hn
    have hu : seen.contains u = false := by
      simpa using hs u (List.mem_cons_self _ _)
    rw [validateURLs, hu]
    simp only [Bool.false_eq_true, if_false]
    rw [ih (u :: seen) hn.2]
    · simp
    · intro x hx hmem
      rcases List.mem_cons.1 hmem with rfl | hmem'
      · exact hn.1 hx
      · exact hs x (List.mem_cons_of_mem _ hx) hmem'

theorem validateURLs_error (seen us : List String)
    (h : ¬ (us.Nodup ∧ ∀ u ∈ us, u ∉ seen)) :
    ∃ u ∈ us, validateURLs seen us = .error (duplicateError u) := by
  induction us generalizing seen with
  | nil => exact absurd ⟨List.nodup_nil, fun u hu => by cases hu⟩ h
  | cons u rest ih =>
    rw [validateURLs]
    by_cases hu : seen.contains u = true
    · rw [if_pos hu]
      exact ⟨u, List.mem_cons_self _ _, rfl⟩
    · rw [if_neg hu]
      have hu' : u ∉ seen := by simpa using hu
      have hrest : ¬ (rest.Nodup ∧ ∀ x ∈ rest, x ∉ u :: seen) := by
        rintro ⟨hn, hs⟩
        apply h
        refine ⟨List.nodup_cons.2 ⟨fun hmem => hs u hmem (List.mem_cons_self _ _), hn⟩, ?_⟩
        intro x hx
        rcases List.mem_cons.1 hx with rfl | hx'
        · exact hu'
        · exact fun hmem => hs x hx' (List.mem_cons_of_mem _ hmem)
      obtain ⟨x, hx, hres⟩ := ih (u :: seen) hrest
      exact ⟨x, List.mem_cons_of_mem _ hx, hres⟩

theorem validateCategories_none (seen : List String) (l : List (String × List String))
    (hn : (l.flatMap Prod.snd).Nodup) (hs : ∀ u ∈ l.flatMap Prod.snd, u ∉ seen) :
    validateCategories seen l = none := by
  induction l generalizing seen with
  | nil => rfl
  | cons e rest ih =>
    rw [List.flatMap_cons, List.nodup_append] at hn
    rw [validateCategories, validateURLs_ok seen e.2 hn.1
      (fun u hu => hs u (by rw [List.flatMap_cons]; exact List.mem_append_left _ hu))]
    apply ih _ hn.2.1
    intro u hu hmem
    rcases List.mem_append.1 hmem with h1 | h2
    · exact hn.2.2 (List.mem_reverse.1 h1) hu
    · exact hs u (by rw [List.flatMap_cons]; exact List.mem_append_right _ hu) h2

theorem validateCategories_some (seen : List String) (l : List (String × List String))
    (h : ¬ ((l.flatMap Prod.snd).Nodup ∧ ∀ u ∈ l.flatMap Prod.snd, u ∉ seen)) :
    ∃ u ∈ l.flatMap Prod.snd, validateCategories seen l = some (duplicateError u) := by
  induction l generalizing seen with
  | nil => exact absurd ⟨List.nodup_nil, fun u hu => by cases hu⟩ h
  | cons e rest ih =>
    rw [validateCategories]
    by_cases he : e.2.Nodup ∧ ∀ u ∈ e.2, u ∉ seen
    · rw [validateURLs_ok seen e.2 he.1 he.2]
      have hrest : ¬ ((rest.flatMap Prod.snd).Nodup ∧
          ∀ u ∈ rest.flatMap Prod.snd, u ∉ e.2.reverse ++ seen) := by
        rintro ⟨hn, hs⟩
        apply h
        rw [List.flatMap_cons]
        refine ⟨List.nodup_append.2 ⟨he.1, hn, ?_⟩, ?_⟩
        · intro x hx hx'
          exact hs x hx' (List.mem_append_left _ (List.mem_reverse.2 hx))
        · intro x hx
          rcases List.mem_append.1 hx with h1 | h2
          · exact he.2 x h1
          · exact fun hmem => hs x h2 (List.mem_append_right _ hmem)
      obtain ⟨u, hu, hres⟩ := ih (e.2.reverse ++ seen) hrest
      exact ⟨u, by rw [List.flatMap_cons]; exact List.mem_append_right _ hu, hres⟩
    · obtain ⟨u, hu, hres⟩ := validateURLs_error seen e.2 he
      rw [hres]
      exact ⟨u, by rw [List.flatMap_cons]; exact List.mem_append_left _ hu, rfl⟩

theorem flatMap_filter_nonempty {α β : Type} (l : List (String × List α)) (g : α → β) :
    ((l.filter fun e => !e.2.isEmpty).map fun e => (e.1, e.2.map g)).flatMap Prod.snd =
      l.flatMap fun e => e.2.map g := by
  induction l with
  | nil => rfl
  | cons e rest ih =>
    cases hes : e.2 with
    | nil => simp [List.filter_cons, hes, ih]
    | cons x xs => simp [List.filter_cons, hes, ih]

theorem isEmpty_map_eq {α β : Type} (f : α → β) (l : List α) :
    (l.map f).isEmpty = l.isEmpty := by
  cases l <;> rfl

theorem parsedState_urls (decl : Declaration) :
    (parsedState (decl.entries.map fun e => (e.1, e.2.map YAMLEntry.entry))
      ).FeedURLsByCategoryTitle.entries =
      (decl.entries.filter fun e => !e.2.isEmpty).map fun e => (e.1, e.2.map YAMLEntry.url) := by
  unfold parsedState
  rw [parseLoop_urls, buildLoop_entries (fun entry : feedEntry => entry.URL) _ _
    (by simpa [Function.comp_def] using decl.nodup) (by simp)]
  simp only [List.nil_append, List.filter_map, List.map_map, Function.comp_def,
    isEmpty_map_eq]
  rfl

theorem parsedState_feeds (decl : Declaration) :
    (parsedState (decl.entries.map fun e => (e.1, e.2.map YAMLEntry.entry))
      ).FeedsByCategoryTitle.entries =
      (decl.entries.filter fun e => !e.2.isEmpty).map fun e =>
        (e.1, e.2.map YAMLEntry.feed) := by
  unfold parsedState
  rw [parseLoop_feeds, buildLoop_entries
    (fun entry : feedEntry => ({ URL := entry.URL, Options := entry.Options } : Feed)) _ _
    (by simpa [Function.comp_def] using decl.nodup) (by simp)]
  simp only [List.nil_append, List.filter_map, List.map_map, Function.comp_def,
    isEmpty_map_eq]
  rfl

theorem parsedState_allURLs (decl : Declaration) :
    (parsedState (decl.entries.map fun e => (e.1, e.2.map YAMLEntry.entry))
      ).FeedURLsByCategoryTitle.entries.flatMap Prod.snd = decl.urls := by
  rw [parsedState_urls, flatMap_filter_nonempty]
  rfl

theorem parsedState_uniqueURLs (decl : Declaration) (hn : decl.urls.Nodup) :
    (parsedState (decl.entries.map fun e => (e.1, e.2.map YAMLEntry.entry))).UniqueURLs := by
  unfold State.UniqueURLs
  rw [← List.map_flatMap, parsedState_feeds, flatMap_filter_nonempty, List.map_flatMap]
  simpa [Declaration.urls, YAMLEntry.feed, Function.comp_def] using hn

theorem Parse_of_entriesHaveURL (decl : Declaration) (h : decl.EntriesHaveURL) :
    Parse decl =
      match validateDuplicateFeedURLs
        (parsedState (decl.entries.map fun e => (e.1, e.2.map YAMLEntry.entry))) with
      | some err => .error (errorsWrap err "validating duplicate feed urls")
      | none => .ok (parsedState (decl.entries.map fun e => (e.1, e.2.map YAMLEntry.entry))) := by
  unfold Parse yamlUnmarshal
  rw [decodeCategories_ok decl.entries h]

theorem Parse_ok (decl : Declaration) (h : decl.EntriesHaveURL) (hn : decl.urls.Nodup) :
    Parse decl = .ok (parsedState (decl.entries.map fun e => (e.1, e.2.map YAMLEntry.entry))) := by
  rw [Parse_of_entriesHaveURL decl h]
  have hv : validateDuplicateFeedURLs
      (parsedState (decl.entries.map fun e => (e.1, e.2.map YAMLEntry.entry))) = none := by
    unfold validateDuplicateFeedURLs
    apply validateCategories_none
    · rw [parsedState_allURLs]
      exact hn
    · intro u _ hu
      cases hu
  rw [hv]

theorem Parse_duplicate (decl : Declaration) (h : decl.EntriesHaveURL)
    (hn : ¬ decl.urls.Nodup) :
    ∃ u ∈ decl.urls, Parse decl =
      .error (errorsWrap (duplicateError u) "validating duplicate feed urls") := by
  rw [Parse_of_entriesHaveURL decl h]
  have hv := validateCategories_some []
    (parsedState (decl.entries.map fun e => (e.1, e.2.map YAMLEntry.entry))
      ).FeedURLsByCategoryTitle.entries
    (by
      rw [parsedState_allURLs]
      exact fun hh => hn hh.1)
  rw [parsedState_allURLs] at hv
  obtain ⟨u, hu, hres⟩ := hv
  refine ⟨u, hu, ?_⟩
  unfold validateDuplicateFeedURLs
  rw [hres]

theorem Parse_missingURL (decl : Declaration) (h : ¬ decl.EntriesHaveURL) :
    Parse decl = .error (errorsWrap missingURLError "unmarshalling data") := by
  unfold Parse yamlUnmarshal
  have hex : ∃ e ∈ decl.entries, ∃ node ∈ e.2, node.hasURL = false := by
    by_contra hno
    apply h
    intro e he node hnode
    cases hn : node.hasURL with
    | false => exact absurd ⟨e, he, node, hnode, hn⟩ hno
    | true => rfl
  rw [decodeCategories_error decl.entries hex]

theorem mentions_duplicate (u : String) :
    Mentions (errorsWrap (duplicateError u) "validating duplicate feed urls") "duplicate" := by
  refine ⟨"validating ".toList,
    " feed urls: ".toList ++ (duplicateError u).toList, ?_⟩
  simp only [errorsWrap, String.toList, String.data_append]
  rfl

theorem mentions_url_wrapped :
    Mentions (errorsWrap missingURLError "unmarshalling data") "url" := by
  unfold Mentions
  decide

theorem not_mentions_duplicate_wrapped :
    ¬ Mentions (errorsWrap missingURLError "unmarshalling data") "duplicate" := by
  unfold Mentions
  decide

/-! ## Lemmas on `GenerateDiffState` and `buildDumpOutput` -/

theorem lookup_setEntry_self {V : Type} (k : String) (v : V) (l : List (String × V)) :
    (setEntry k v l).lookup k = some v := by
  unfold setEntry
  by_cases hk : k ∈ l.map Prod.fst
  · rw [if_pos hk]
    induction l with
    | nil => simp at hk
    | cons p l ih =>
      by_cases hp : p.1 = k
      · rw [List.map_cons, if_pos hp, List.lookup_cons]
        simp
      · have hb : (k == p.1) = false := by simpa using fun h : k = p.1 => hp h.symm
        have hk' : k ∈ l.map Prod.fst := by
          rcases List.mem_cons.1 hk with h | h
          · exact absurd h.symm hp
          · exact h
        rw [List.map_cons, if_neg hp, List.lookup_cons, hb]
        exact ih hk'
  · rw [if_neg hk]
    exact lookup_append_last l k v hk

theorem lookup_setEntry_of_ne {V : Type} (k k' : String) (v : V) (l : List (String × V))
    (hne : k' ≠ k) : (setEntry k v l).lookup k' = l.lookup k' := by
  unfold setEntry
  by_cases hk : k ∈ l.map Prod.fst
  · rw [if_pos hk]
    clear hk
    induction l with
    | nil => rfl
    | cons p l ih =>
      by_cases hp : p.1 = k
      · have hb : (k' == p.1) = false := by simpa [hp] using hne
        have hb' : (k' == k) = false := by simpa using hne
        rw [List.map_cons, if_pos hp, List.lookup_cons, List.lookup_cons, hb, hb']
        exact ih
      · rw [List.map_cons, if_neg hp, List.lookup_cons, List.lookup_cons, ih]
  · rw [if_neg hk]
    induction l with
    | nil =>
      have hb' : (k' == k) = false := by simpa using hne
      simp [List.lookup, hb']
    | cons p l ih =>
      rw [List.map_cons, List.mem_cons, not_or] at hk
      rw [List.cons_append, List.lookup_cons, List.lookup_cons, ih hk.2]

theorem GoMap.get?_set_self {V : Type} (m : GoMap V) (k : String) (v : V) :
    (m.set k v).get? k = some v :=
  lookup_setEntry_self k v m.entries

theorem GoMap.get?_set_of_ne {V : Type} (m : GoMap V) (k k' : String) (v : V)
    (hne : k' ≠ k) : (m.set k v).get? k' = m.get? k' :=
  lookup_setEntry_of_ne k k' v m.entries hne

theorem GoMap.get?_set {V : Type} (m : GoMap V) (k k' : String) (v : V) :
    (m.set k v).get? k' = if k' = k then some v else m.get? k' := by
  by_cases h : k' = k
  · rw [if_pos h, h]
    exact m.get?_set_self k v
  · rw [if_neg h]
    exact m.get?_set_of_ne k k' v h

theorem GoMap.isKey_iff_get? {V : Type} (m : GoMap V) (k : String) :
    k ∈ m.entries.map Prod.fst ↔ m.get? k ≠ none := by
  rw [Ne, GoMap.get?_eq_none_iff]
  exact not_not.symm

/-- The URL projection of the entries of a feed map. -/
theorem lookup_map_urls (l : List (String × List Feed)) (k : String) :
    (l.map fun e => (e.1, e.2.map Feed.URL)).lookup k =
      (l.lookup k).map (List.map Feed.URL) := by
  induction l with
  | nil => rfl
  | cons p l ih =>
    rw [List.map_cons, List.lookup_cons, List.lookup_cons, ih]
    cases (k == p.1) <;> rfl

theorem setEntry_map_urls (k : String) (v : List Feed) (l : List (String × List Feed)) :
    setEntry k (v.map Feed.URL) (l.map fun e => (e.1, e.2.map Feed.URL)) =
      (setEntry k v l).map fun e => (e.1, e.2.map Feed.URL) := by
  unfold setEntry
  have hkeys : (l.map fun e => (e.1, e.2.map Feed.URL)).map Prod.fst = l.map Prod.fst := by
    rw [List.map_map]
    rfl
  rw [hkeys]
  by_cases hk : k ∈ l.map Prod.fst
  · rw [if_pos hk, if_pos hk, List.map_map, List.map_map]
    apply List.map_congr_left
    intro e _
    by_cases he : e.1 = k
    · simp [he]
    · simp [he]
  · rw [if_neg hk, if_neg hk]
    simp

theorem State.Lockstep.getD {s : State} (h : s.Lockstep) (k : String) :
    s.FeedURLsByCategoryTitle.getD k [] =
      (s.FeedsByCategoryTitle.getD k []).map Feed.URL := by
  unfold GoMap.getD GoMap.get?
  rw [h, lookup_map_urls]
  cases s.FeedsByCategoryTitle.entries.lookup k <;> rfl

theorem State.Lockstep.get? {s : State} (h : s.Lockstep) (k : String) :
    s.FeedURLsByCategoryTitle.get? k =
      (s.FeedsByCategoryTitle.get? k).map (List.map Feed.URL) := by
  unfold GoMap.get?
  rw [h, lookup_map_urls]

theorem State.Lockstep.urlsProjectFeeds {s : State} (h : s.Lockstep) : s.URLsProjectFeeds := by
  unfold State.URLsProjectFeeds
  rw [h]

theorem initCategories_lockstep (categories : List MinifluxCategory) :
    ∀ st : State, st.Lockstep → (initCategories categories st).Lockstep := by
  induction categories with
  | nil => intro st h; exact h
  | cons c rest ih =>
    intro st h
    unfold initCategories
    rw [List.foldl_cons]
    apply ih
    show setEntry c.Title [] st.FeedURLsByCategoryTitle.entries =
      (setEntry c.Title [] st.FeedsByCategoryTitle.entries).map _
    rw [← setEntry_map_urls, h]
    rfl

theorem initCategories_get? (categories : List MinifluxCategory) :
    ∀ (st : State) (t : String),
      (initCategories categories st).FeedsByCategoryTitle.get? t =
        if t ∈ categories.map MinifluxCategory.Title then some []
        else st.FeedsByCategoryTitle.get? t := by
  induction categories with
  | nil => intro st t; simp [initCategories]
  | cons c rest ih =>
    intro st t
    unfold initCategories at ih ⊢
    rw [List.foldl_cons, ih]
    by_cases hrest : t ∈ rest.map MinifluxCategory.Title
    · rw [if_pos hrest, if_pos (by rw [List.map_cons]; exact List.mem_cons_of_mem _ hrest)]
    · rw [if_neg hrest]
      show (st.FeedsByCategoryTitle.set c.Title []).get? t = _
      rw [GoMap.get?_set]
      by_cases htc : t = c.Title
      · rw [if_pos htc, if_pos (by rw [List.map_cons, htc]; exact List.mem_cons_self _ _)]
      · rw [if_neg htc, if_neg]
        rw [List.map_cons, List.mem_cons, not_or]
        exact ⟨htc, hrest⟩

theorem populateFeeds_error (feeds : List MinifluxFeed)
    (h : ∃ f ∈ feeds, f.Category = none) :
    ∀ st : State, populateFeeds feeds st = .error "feed has no category" := by
  induction feeds with
  | nil =>
    obtain ⟨f, hf, -⟩ := h
    cases hf
  | cons f rest ih =>
    intro st
    rw [populateFeeds]
    cases hc : f.Category with
    | none => rfl
    | some c =>
      have hrest : ∃ g ∈ rest, g.Category = none := by
        obtain ⟨g, hg, hgc⟩ := h
        rcases List.mem_cons.1 hg with rfl | hg'
        · rw [hc] at hgc
          cases hgc
        · exact ⟨g, hg', hgc⟩
      exact ih hrest _

theorem populateFeeds_ok (feeds : List MinifluxFeed)
    (h : ∀ f ∈ feeds, f.Category ≠ none) :
    ∀ st : State, ∃ st' : State, populateFeeds feeds st = .ok st' ∧
      (st.Lockstep → st'.Lockstep) ∧
      ∀ t : String, st'.FeedsByCategoryTitle.get? t =
        if (feeds.filter (MinifluxFeed.hasTitle t)).isEmpty then
          st.FeedsByCategoryTitle.get? t
        else
          some (st.FeedsByCategoryTitle.getD t [] ++
            (feeds.filter (MinifluxFeed.hasTitle t)).map MinifluxFeed.toFeed) := by
  induction feeds with
  | nil =>
    intro st
    exact ⟨st, rfl, id, fun t => by simp⟩
  | cons f rest ih =>
    intro st
    rw [populateFeeds]
    cases hc : f.Category with
    | none => exact absurd hc (h f (List.mem_cons_self _ _))
    | some c =>
      obtain ⟨st', hst', hlock, hget⟩ :=
        ih (fun g hg => h g (List.mem_cons_of_mem _ hg))
          { FeedURLsByCategoryTitle :=
              st.FeedURLsByCategoryTitle.set c.Title
                (st.FeedURLsByCategoryTitle.getD c.Title [] ++ [f.FeedURL])
            FeedsByCategoryTitle :=
              st.FeedsByCategoryTitle.set c.Title
                (st.FeedsByCategoryTitle.getD c.Title [] ++
                  [{ URL := f.FeedURL, Options := extractFeedOptions f }]) }
      refine ⟨st', hst', ?_, ?_⟩
      · intro hl
        apply hlock
        show setEntry c.Title _ st.FeedURLsByCategoryTitle.entries =
          (setEntry c.Title _ st.FeedsByCategoryTitle.entries).map _
        rw [← setEntry_map_urls, hl.getD, hl]
        simp
      · intro t
        rw [hget t]
        have htitle : MinifluxFeed.hasTitle t f = (c.Title == t) := by
          unfold MinifluxFeed.hasTitle
          rw [hc]
        show (if (rest.filter (MinifluxFeed.hasTitle t)).isEmpty then
            (st.FeedsByCategoryTitle.set c.Title _).get? t
          else some (GoMap.getD (st.FeedsByCategoryTitle.set c.Title _) t [] ++ _)) = _
        unfold GoMap.getD
        rw [GoMap.get?_set]
        by_cases htc : t = c.Title
        · have hb : (c.Title == t) = true := by simpa using htc.symm
          rw [if_pos htc, List.filter_cons, htitle, hb]
          simp only [if_true, List.isEmpty_cons, Bool.false_eq_true, if_false, List.map_cons]
          rw [htc]
          cases hrest : (rest.filter (MinifluxFeed.hasTitle c.Title)).isEmpty with
          | true =>
            have hnil : rest.filter (MinifluxFeed.hasTitle c.Title) = [] :=
              List.isEmpty_iff.1 hrest
            simp [hnil, MinifluxFeed.toFeed]
          | false => simp [MinifluxFeed.toFeed]
        · have hb : (c.Title == t) = false := by simpa using fun h : c.Title = t => htc h.symm
          rw [if_neg htc, List.filter_cons, htitle, hb]
          simp only [Bool.false_eq_true, if_false]

theorem GenerateDiffState_ok (feeds : List MinifluxFeed) (categories : List MinifluxCategory)
    (h : ∀ f ∈ feeds, f.Category ≠ none) :
    ∃ st : State, GenerateDiffState feeds categories = .ok st ∧ st.Lockstep ∧
      (∀ t : String, (t ∈ categories.map MinifluxCategory.Title ∨
          ∃ f ∈ feeds, f.hasTitle t = true) →
        st.FeedsByCategoryTitle.get? t =
          some ((feeds.filter (MinifluxFeed.hasTitle t)).map MinifluxFeed.toFeed)) ∧
      (∀ t : String, ¬ (t ∈ categories.map MinifluxCategory.Title ∨
          ∃ f ∈ feeds, f.hasTitle t = true) →
        st.FeedsByCategoryTitle.get? t = none) := by
  obtain ⟨st, hst, hlock, hget⟩ := populateFeeds_ok feeds h
    (initCategories categories
      { FeedURLsByCategoryTitle := ⟨[], List.nodup_nil⟩
        FeedsByCategoryTitle := ⟨[], List.nodup_nil⟩ })
  have hinit : ∀ t : String, (initCategories categories
      { FeedURLsByCategoryTitle := ⟨[], List.nodup_nil⟩
        FeedsByCategoryTitle := ⟨[], List.nodup_nil⟩ }).FeedsByCategoryTitle.get? t =
      if t ∈ categories.map MinifluxCategory.Title then some [] else none := by
    intro t
    rw [initCategories_get?]
    rfl
  have hgetD : ∀ t : String, (initCategories categories
      { FeedURLsByCategoryTitle := ⟨[], List.nodup_nil⟩
        FeedsByCategoryTitle := ⟨[], List.nodup_nil⟩ }).FeedsByCategoryTitle.getD t [] = [] := by
    intro t
    unfold GoMap.getD
    rw [hinit t]
    by_cases ht : t ∈ categories.map MinifluxCategory.Title
    · rw [if_pos ht]
    · rw [if_neg ht]
  have hfilter : ∀ t : String, (feeds.filter (MinifluxFeed.hasTitle t)).isEmpty = false ↔
      ∃ f ∈ feeds, f.hasTitle t = true := by
    intro t
    cases hf : feeds.filter (MinifluxFeed.hasTitle t) with
    | nil =>
      simp only [List.isEmpty_nil, Bool.true_eq_false, false_iff]
      rintro ⟨f, hmem, hft⟩
      have : f ∈ feeds.filter (MinifluxFeed.hasTitle t) := List.mem_filter.2 ⟨hmem, hft⟩
      rw [hf] at this
      cases this
    | cons x xs =>
      simp only [List.isEmpty_cons, true_iff]
      have hx : x ∈ feeds.filter (MinifluxFeed.hasTitle t) := by
        rw [hf]
        exact List.mem_cons_self _ _
      exact ⟨x, (List.mem_filter.1 hx).1, (List.mem_filter.1 hx).2⟩
  refine ⟨st, hst, hlock (initCategories_lockstep categories _ rfl), ?_, ?_⟩
  · intro t ht
    rw [hget t, hinit t, hgetD t]
    cases hemp : (feeds.filter (MinifluxFeed.hasTitle t)).isEmpty with
    | true =>
      have hnil : feeds.filter (MinifluxFeed.hasTitle t) = [] := List.isEmpty_iff.1 hemp
      have hno : ¬ ∃ f ∈ feeds, f.hasTitle t = true := by
        rw [← hfilter t, hemp]
        simp
      have hcat : t ∈ categories.map MinifluxCategory.Title := ht.resolve_right hno
      simp [hnil, hcat]
    | false => simp
  · intro t ht
    rw [not_or] at ht
    have hemp : (feeds.filter (MinifluxFeed.hasTitle t)).isEmpty = true := by
      cases he : (feeds.filter (MinifluxFeed.hasTitle t)).isEmpty with
      | true => rfl
      | false => exact absurd ((hfilter t).1 he) ht.2
    rw [hget t, hemp, hinit t, if_neg ht.1]
    rfl

theorem GenerateDiffState_error (feeds : List MinifluxFeed)
    (categories : List MinifluxCategory) (h : ∃ f ∈ feeds, f.Category = none) :
    GenerateDiffState feeds categories = .error "feed has no category" :=
  populateFeeds_error feeds h _

theorem dumpFeed_eq (output : GoMap (List DumpItem)) (category : String) (feed : Feed) :
    dumpFeed output category feed =
      output.set category (output.getD category [] ++ [dumpItem feed]) := by
  unfold dumpFeed dumpItem
  split <;> rfl

theorem buildDumpOutput_entries (s : State) :
    (buildDumpOutput s).entries =
      (s.FeedsByCategoryTitle.entries.filter fun e => !e.2.isEmpty).map fun e =>
        (e.1, e.2.map dumpItem) := by
  unfold buildDumpOutput
  simp only [dumpFeed_eq]
  rw [buildLoop_entries dumpItem _ _ s.FeedsByCategoryTitle.nodup (by simp)]
  rfl

theorem buildDumpOutput_get?_nonempty (s : State) (c : String) (feeds : List Feed)
    (he : (c, feeds) ∈ s.FeedsByCategoryTitle.entries) (hne : feeds ≠ []) :
    (buildDumpOutput s).get? c = some (feeds.map dumpItem) := by
  rw [GoMap.get?_eq_some_iff, buildDumpOutput_entries]
  refine List.mem_map.2 ⟨(c, feeds), List.mem_filter.2 ⟨he, ?_⟩, rfl⟩
  cases feeds with
  | nil => exact absurd rfl hne
  | cons x xs => rfl

theorem buildDumpOutput_get?_empty (s : State) (c : String)
    (he : (c, []) ∈ s.FeedsByCategoryTitle.entries) :
    (buildDumpOutput s).get? c = none := by
  rw [GoMap.get?_eq_none_iff, buildDumpOutput_entries]
  intro hk
  obtain ⟨p, hp, hpc⟩ := List.mem_map.1 hk
  obtain ⟨e, hfilt, rfl⟩ := List.mem_map.1 hp
  obtain ⟨hmem, hnonempty⟩ := List.mem_filter.1 hfilt
  have hc : e.1 = c := hpc
  have h1 := (GoMap.get?_eq_some_iff s.FeedsByCategoryTitle c []).2 he
  have h2 := (GoMap.get?_eq_some_iff s.FeedsByCategoryTitle e.1 e.2).2 hmem
  rw [hc, h1] at h2
  have h3 : e.2 = [] := (Option.some.inj h2).symm
  rw [h3] at hnonempty
  cases hnonempty

theorem ite_true_guard (p : Prop) [Decidable p] (t : Bool) :
    ((if p then true else t) = true) ↔ (p ∨ t = true) := by
  by_cases h : p
  · simp [h]
  · simp [h]

theorem string_guard (x : Option String) :
    (x != none && x != some "") = true ↔ ∃ v, x = some v ∧ v ≠ "" := by
  cases x with
  | none => simp
  | some v => simp

theorem hasNonDefaultOptions_iff (o : FeedOptions) :
    hasNonDefaultOptions o = true ↔ SomeNonDefault o := by
  unfold hasNonDefaultOptions SomeNonDefault
  simp only [ite_true_guard, string_guard, beq_iff_eq, Bool.false_eq_true, or_false]

theorem nonDefaultBool_eq_some (ptr : Option Bool) (b : Bool) :
    nonDefaultBool ptr false = some b ↔ ptr = some true ∧ b = true := by
  cases ptr with
  | none => simp [nonDefaultBool]
  | some v => cases v <;> cases b <;> simp [nonDefaultBool]

theorem nonDefaultBool_eq_none (ptr : Option Bool) :
    nonDefaultBool ptr false = none ↔ ptr = none ∨ ptr = some false := by
  cases ptr with
  | none => simp [nonDefaultBool]
  | some v => cases v <;> simp [nonDefaultBool]

theorem attrAgrees_nonDefaultBool (ptr : Option Bool) :
    AttrAgrees (nonDefaultBool ptr false) ptr := by
  intro h
  cases ptr with
  | none => exact absurd rfl h
  | some v =>
    cases v
    · exact absurd rfl h
    · rfl

theorem needsUpdate_of_equal (o r : FeedOptions) (h : o.Equal r = true) :
    needsUpdate o r = false := by
  unfold needsUpdate
  rw [h]
  cases o.IsEmpty <;> rfl

theorem needsUpdate_dumped (u : String) (o : FeedOptions) :
    needsUpdate (dumpItem { URL := u, Options := o }).toYAML.options o = false := by
  unfold dumpItem
  cases hnd : hasNonDefaultOptions o with
  | false => rfl
  | true =>
    apply needsUpdate_of_equal
    rw [Equal_iff_EqualSpec]
    simp only [if_true, DumpItem.toYAML, YAMLEntry.options, dumpEntry]
    refine ⟨attrAgrees_nonDefaultBool _, ?_, ?_, ?_, ?_, attrAgrees_nonDefaultBool _,
      attrAgrees_nonDefaultBool _, attrAgrees_nonDefaultBool _, attrAgrees_nonDefaultBool _,
      attrAgrees_nonDefaultBool _, ?_, ?_, ?_, ?_, attrAgrees_nonDefaultBool _⟩
    all_goals exact fun _ => rfl

theorem categorySet_entries {V : Type} :
    ∀ (l : List (String × V)) (m : GoMap Unit), (l.map Prod.fst).Nodup →
      (∀ k ∈ l.map Prod.fst, k ∉ m.entries.map Prod.fst) →
      (l.foldl (fun set e => set.set e.1 ()) m).entries =
        m.entries ++ l.map fun e => (e.1, ()) := by
  intro l
  induction l with
  | nil => intro m _ _; simp
  | cons e rest ih =>
    intro m hn hfresh
    rw [List.map_cons, List.nodup_cons] at hn
    have hk : e.1 ∉ m.entries.map Prod.fst := hfresh e.1 (by simp)
    have hset : (m.set e.1 ()).entries = m.entries ++ [(e.1, ())] :=
      setEntry_of_not_mem m.entries e.1 () hk
    rw [List.foldl_cons, ih (m.set e.1 ()) hn.2, hset]
    · simp
    · intro k hkrest
      rw [hset]
      have hkm : k ∉ m.entries.map Prod.fst := hfresh k (List.mem_cons_of_mem _ hkrest)
      have hke : k ≠ e.1 := fun h => hn.1 (h ▸ hkrest)
      simp only [List.map_append, List.map_cons, List.map_nil, List.mem_append,
        List.mem_singleton, not_or]
      exact ⟨hkm, hke⟩

theorem CategoryTitles_eq (s : State) :
    s.CategoryTitles = s.FeedURLsByCategoryTitle.entries.map Prod.fst := by
  unfold State.CategoryTitles
  simp only []
  rw [categorySet_entries _ _ s.FeedURLsByCategoryTitle.nodup (by simp)]
  simp [Function.comp_def]

theorem mem_CategoryTitles_iff (s : State) (t : String) :
    t ∈ s.CategoryTitles ↔ s.IsCategory t := by
  rw [CategoryTitles_eq]
  rfl

theorem stringPtrIfNotEmpty_of_ne (v : String) (h : v ≠ "") :
    stringPtrIfNotEmpty v = some v := by
  unfold stringPtrIfNotEmpty
  have hb : (v == "") = false := by simpa using h
  rw [hb]
  rfl

theorem attrAgrees_string (a : Option String) (v : String) (h : AttrAgrees a (some v))
    (hne : a ≠ some "") : AttrAgrees a (stringPtrIfNotEmpty v) := by
  intro hset
  have ha := h hset
  rw [ha] at hne ⊢
  have hv : v ≠ "" := fun he => hne (by rw [he])
  rw [stringPtrIfNotEmpty_of_ne v hv]

theorem needsUpdate_extract_of_matches (o : FeedOptions) (feed : MinifluxFeed)
    (hm : OptionsMatch o feed) (hs : NoEmptyString o) :
    needsUpdate o (extractFeedOptions feed) = false := by
  apply needsUpdate_of_equal
  rw [Equal_iff_EqualSpec]
  obtain ⟨m1, m2, m3, m4, m5, m6, m7, m8, m9, m10, m11, m12, m13, m14, m15⟩ := hm
  obtain ⟨s1, s2, s3, s4, s5, s6, s7, s8⟩ := hs
  exact ⟨m1, attrAgrees_string _ _ m2 s1, attrAgrees_string _ _ m3 s2,
    attrAgrees_string _ _ m4 s3, attrAgrees_string _ _ m5 s4, m6, m7, m8, m9, m10,
    attrAgrees_string _ _ m11 s5, attrAgrees_string _ _ m12 s6,
    attrAgrees_string _ _ m13 s7, attrAgrees_string _ _ m14 s8, m15⟩

/-! ## The claims -/

/-- C1 (idempotence): for every well-formed state `S` (the URL map is the URL projection of
the feed map with the same category keys, and every feed URL occurs at most once across all
categories), `CalculateDiff(S, S)` returns the empty action list, with a nil error. -/
theorem C1_idempotence (S : State) (hS : S.WellFormed) : CalculateDiff S S = ([], none) := by
  unfold CalculateDiff
  rw [appendedActions_self S hS]
  rfl

/-- Witness of C1: the state with the category "Tech" and one feed with `crawler=true` is
well formed, and its diff against itself is empty. -/
theorem C1_idempotence_witness :
    techCrawlerState.WellFormed ∧ CalculateDiff techCrawlerState techCrawlerState = ([], none) :=
  ⟨by decide, C1_idempotence techCrawlerState (by decide)⟩

/-- C2 (ordering law): in the list returned by `CalculateDiff`, every DeleteFeed action
stands before every DeleteCategory action, every DeleteCategory before every CreateCategory,
every CreateCategory before every CreateFeed and every CreateFeed before every UpdateFeed,
and likewise for every two types further apart in that chain. -/
theorem C2_ordering_law (loc remote : State) :
    AllBefore .DeleteFeed .DeleteCategory (CalculateDiff loc remote).1 ∧
    AllBefore .DeleteCategory .CreateCategory (CalculateDiff loc remote).1 ∧
    AllBefore .CreateCategory .CreateFeed (CalculateDiff loc remote).1 ∧
    AllBefore .CreateFeed .UpdateFeed (CalculateDiff loc remote).1 ∧
    AllBefore .DeleteFeed .CreateCategory (CalculateDiff loc remote).1 ∧
    AllBefore .DeleteFeed .CreateFeed (CalculateDiff loc remote).1 ∧
    AllBefore .DeleteFeed .UpdateFeed (CalculateDiff loc remote).1 ∧
    AllBefore .DeleteCategory .CreateFeed (CalculateDiff loc remote).1 ∧
    AllBefore .DeleteCategory .UpdateFeed (CalculateDiff loc remote).1 ∧
    AllBefore .CreateCategory .UpdateFeed (CalculateDiff loc remote).1 :=
  ⟨allBefore_CalculateDiff _ _ (by decide) loc remote,
    allBefore_CalculateDiff _ _ (by decide) loc remote,
    allBefore_CalculateDiff _ _ (by decide) loc remote,
    allBefore_CalculateDiff _ _ (by decide) loc remote,
    allBefore_CalculateDiff _ _ (by decide) loc remote,
    allBefore_CalculateDiff _ _ (by decide) loc remote,
    allBefore_CalculateDiff _ _ (by decide) loc remote,
    allBefore_CalculateDiff _ _ (by decide) loc remote,
    allBefore_CalculateDiff _ _ (by decide) loc remote,
    allBefore_CalculateDiff _ _ (by decide) loc remote⟩

/-- C3 (feed deletions): the result of `CalculateDiff` contains `DeleteFeed(c, u)` if and
only if `u` is in the URL list of the category `c` of the remote state and
`local.FeedExists(u, c)` is false; the test is on the pair, so a URL that the local state
holds under another category `c'` is still deleted from `c`. -/
theorem C3_feed_deletions (loc remote : State) (c u : String) :
    (Action.deleteFeed c u ∈ (CalculateDiff loc remote).1 ↔
      remote.HasURL c u ∧ loc.FeedExists u c = false) ∧
    (∀ c' : String, c' ≠ c → loc.FeedExists u c' = true → remote.HasURL c u →
      loc.FeedExists u c = false → Action.deleteFeed c u ∈ (CalculateDiff loc remote).1) :=
  ⟨deleteFeed_mem_iff loc remote c u,
    fun _ _ _ hr hl => (deleteFeed_mem_iff loc remote c u).2 ⟨hr, hl⟩⟩

/-- Witness of C3: the remote state holds "http://x" under "Tech", the local state holds it
under "News" only (and still has the category "Tech"), and the feed is deleted from "Tech". -/
theorem C3_feed_deletions_witness :
    Action.deleteFeed "Tech" "http://x" ∈ (CalculateDiff newsState techPlainState).1 :=
  (C3_feed_deletions newsState techPlainState "Tech" "http://x").2 "News" (by decide)
    (by decide) ⟨["http://x"], by decide, by decide⟩ (by decide)

/-- C4 (feed creations): the result of `CalculateDiff` contains the action
`CreateFeed(c, u, o)` if and only if the local state has the feed with URL `u` and options
`o` under the category `c` (by `GetFeedsByCategory`) and `remote.FeedExists(u, c)` is false;
so the options that the action carries are the full option set of the local feed. -/
theorem C4_feed_creations (loc remote : State) (c u : String) (o : FeedOptions) :
    Action.createFeed c u o ∈ (CalculateDiff loc remote).1 ↔
      loc.HasFeed c { URL := u, Options := o } ∧ remote.FeedExists u c = false :=
  createFeed_mem_iff loc remote c u o

/-- C5 (feed option updates): the result of `CalculateDiff` contains `UpdateFeed(c, u, o)`
if and only if the local state has the feed `(u, o)` under the category `c`,
`remote.FeedExists(u, c)` is true, `o` has at least one attribute set, and at least one
attribute set in `o` is unset or has a different value in `remote.GetFeedOptions(u)`; the
action carries the local option set `o`. -/
theorem C5_feed_option_updates (loc remote : State) (c u : String) (o : FeedOptions) :
    Action.updateFeed c u o ∈ (CalculateDiff loc remote).1 ↔
      loc.HasFeed c { URL := u, Options := o } ∧ remote.FeedExists u c = true ∧
        SomeAttrSet o ∧ SomeAttrDiffers o (remote.GetFeedOptions u) := by
  rw [updateFeed_mem_iff, needsUpdate_iff]

/-- C6 (category deletions): the result of `CalculateDiff` contains `DeleteCategory(t)` if
and only if `t` is a category of the remote state and not of the local state; a title that
is still a local category gets no `DeleteCategory`, whatever feeds the same diff deletes from
it (no pruning of emptied categories). -/
theorem C6_category_deletions (loc remote : State) (t : String) :
    (Action.deleteCategory t ∈ (CalculateDiff loc remote).1 ↔
      remote.IsCategory t ∧ ¬ loc.IsCategory t) ∧
    (loc.IsCategory t → Action.deleteCategory t ∉ (CalculateDiff loc remote).1) :=
  ⟨deleteCategory_mem_iff loc remote t,
    fun hl h => ((deleteCategory_mem_iff loc remote t).1 h).2 hl⟩

/-- Witness of C6: the only feed of the remote category "Tech" is deleted by the diff, the
local state still declares "Tech", and no `DeleteCategory("Tech")` is produced. -/
theorem C6_category_deletions_witness :
    Action.deleteFeed "Tech" "http://x" ∈ (CalculateDiff newsState techPlainState).1 ∧
    Action.deleteCategory "Tech" ∉ (CalculateDiff newsState techPlainState).1 :=
  ⟨by decide, (C6_category_deletions newsState techPlainState "Tech").2 (by decide)⟩

/-- C7 (category creations): the result of `CalculateDiff` contains `CreateCategory(t)` if
and only if `t` is a category of the local state and not of the remote state, and then it
contains it exactly once. -/
theorem C7_category_creations (loc remote : State) (t : String) :
    (Action.createCategory t ∈ (CalculateDiff loc remote).1 ↔
      loc.IsCategory t ∧ ¬ remote.IsCategory t) ∧
    ((CalculateDiff loc remote).1.count (Action.createCategory t) = 1 ↔
      loc.IsCategory t ∧ ¬ remote.IsCategory t) := by
  refine ⟨createCategory_mem_iff loc remote t, ?_⟩
  rw [← createCategory_mem_iff loc remote t]
  constructor
  · intro h
    apply List.count_pos_iff.1
    omega
  · exact count_createCategory loc remote t

/-- C8 (symmetry of deletes and creates): if `t` is a category of `L` and not of `R`, then
`CalculateDiff(L, R)` contains `CreateCategory(t)` and no `DeleteCategory(t)`, and
`CalculateDiff(R, L)` contains `DeleteCategory(t)` and no `CreateCategory(t)`; and for all
states `CreateCategory(t)` is in `CalculateDiff(L, R)` exactly when `DeleteCategory(t)` is in
`CalculateDiff(R, L)`. -/
theorem C8_symmetry (L R : State) (t : String) :
    (L.IsCategory t → ¬ R.IsCategory t →
      Action.createCategory t ∈ (CalculateDiff L R).1 ∧
      Action.deleteCategory t ∉ (CalculateDiff L R).1 ∧
      Action.deleteCategory t ∈ (CalculateDiff R L).1 ∧
      Action.createCategory t ∉ (CalculateDiff R L).1) ∧
    (Action.createCategory t ∈ (CalculateDiff L R).1 ↔
      Action.deleteCategory t ∈ (CalculateDiff R L).1) := by
  constructor
  · intro hL hR
    refine ⟨(createCategory_mem_iff L R t).2 ⟨hL, hR⟩, ?_,
      (deleteCategory_mem_iff R L t).2 ⟨hL, hR⟩, ?_⟩
    · intro h
      exact hR ((deleteCategory_mem_iff L R t).1 h).1
    · intro h
      exact hR ((createCategory_mem_iff R L t).1 h).1
  · rw [createCategory_mem_iff, deleteCategory_mem_iff]

/-- Witness of C8: "Tech" is a category of the state with one feed and not of the empty
state. -/
theorem C8_symmetry_witness :
    Action.createCategory "Tech" ∈ (CalculateDiff techPlainState emptyState).1 ∧
    Action.deleteCategory "Tech" ∉ (CalculateDiff techPlainState emptyState).1 ∧
    Action.deleteCategory "Tech" ∈ (CalculateDiff emptyState techPlainState).1 ∧
    Action.createCategory "Tech" ∉ (CalculateDiff emptyState techPlainState).1 :=
  (C8_symmetry techPlainState emptyState "Tech").1 (by decide) (by decide)

/-- C9 (update suppression): if a local feed with URL `u` under the category `c` has an
option set `o` with no attribute set, then the result of `CalculateDiff` holds no
`UpdateFeed` action for that feed, whatever the remote state records for `u`: the action
`UpdateFeed(c, u, o)` is absent, every `UpdateFeed` action of the result carries a non-empty
option set, and when the local feed URLs are unique no `UpdateFeed` action names `u`. -/
theorem C9_update_suppression (loc remote : State) (c u : String) (o : FeedOptions)
    (hfeed : loc.HasFeed c { URL := u, Options := o }) (hempty : o.IsEmpty = true) :
    Action.updateFeed c u o ∉ (CalculateDiff loc remote).1 ∧
    (∀ a ∈ (CalculateDiff loc remote).1, a.Typ = .UpdateFeed →
      a.FeedOptions.IsEmpty = false) ∧
    (loc.UniqueURLs →
      ∀ a ∈ (CalculateDiff loc remote).1, a.Typ = .UpdateFeed → a.FeedURL ≠ u) := by
  refine ⟨?_, update_options_not_empty loc remote, ?_⟩
  · intro h
    have hn := ((updateFeed_mem_iff loc remote c u o).1 h).2.2
    rw [needsUpdate_of_isEmpty o _ hempty] at hn
    cases hn
  · intro hu a ha ht
    exact no_update_for_empty_feed loc remote hu c u o hfeed hempty a ha ht

/-- Witness of C9: the local feed "http://x" has no option set, the remote state records
`crawler=true` for it, and no `UpdateFeed` action names the feed. -/
theorem C9_update_suppression_witness :
    Action.updateFeed "Tech" "http://x" {} ∉ (CalculateDiff techPlainState techCrawlerState).1 ∧
    (∀ a ∈ (CalculateDiff techPlainState techCrawlerState).1, a.Typ = .UpdateFeed →
      a.FeedURL ≠ "http://x") :=
  have h := C9_update_suppression techPlainState techCrawlerState "Tech" "http://x" {}
    ⟨[{ URL := "http://x" }], by decide, by decide⟩ (by decide)
  ⟨h.1, h.2.2 (by decide)⟩

/-- C10 (option-set equality is the asymmetric partial comparison): `A.Equal(B)` is true if
and only if each of the fifteen attributes that is set in `A` is set in `B` with the same
value; so `A.Equal(B)` is true for every `B` when `A` is empty, and for an empty `A` and a
`B` with an attribute set, `A.Equal(B)` holds and `B.Equal(A)` does not. -/
theorem C10_equal_asymmetric (A B : FeedOptions) :
    (A.Equal B = true ↔ EqualSpec A B) ∧
    (A.IsEmpty = true → A.Equal B = true) ∧
    (A.IsEmpty = true → SomeAttrSet B → A.Equal B = true ∧ B.Equal A = false) := by
  refine ⟨Equal_iff_EqualSpec A B, Equal_of_isEmpty A B, ?_⟩
  intro hA hB
  refine ⟨Equal_of_isEmpty A B hA, ?_⟩
  rw [Equal_eq_false_iff]
  rw [isEmpty_iff] at hA
  obtain ⟨h1, h2, h3, h4, h5, h6, h7, h8, h9, h10, h11, h12, h13, h14, h15⟩ := hA
  unfold SomeAttrSet at hB
  unfold SomeAttrDiffers AttrDiffers
  rw [h1, h2, h3, h4, h5, h6, h7, h8, h9, h10, h11, h12, h13, h14, h15]
  simpa using hB

/-- Witness of C10: the empty option set equals the one that sets `crawler=true`, and not
the other way round. -/
theorem C10_equal_asymmetric_witness :
    FeedOptions.Equal {} crawlerOn = true ∧ FeedOptions.Equal crawlerOn {} = false :=
  (C10_equal_asymmetric {} crawlerOn).2.2 (by decide) (Or.inl (by decide))

/-- C11 (emptiness): `o.IsEmpty()` is true if and only if none of the fifteen attributes of
`o` is set; setting any attribute, also to false or to the empty string, makes the option
set non-empty. -/
theorem C11_isEmpty (o : FeedOptions) :
    (o.IsEmpty = true ↔ ¬ SomeAttrSet o) ∧
    (∀ b : Bool, FeedOptions.IsEmpty { o with Crawler := some b } = false) ∧
    (∀ v : String, FeedOptions.IsEmpty { o with Username := some v } = false) ∧
    (∀ v : String, FeedOptions.IsEmpty { o with Password := some v } = false) ∧
    (∀ v : String, FeedOptions.IsEmpty { o with UserAgent := some v } = false) ∧
    (∀ v : String, FeedOptions.IsEmpty { o with Cookie := some v } = false) ∧
    (∀ b : Bool, FeedOptions.IsEmpty { o with Disabled := some b } = false) ∧
    (∀ b : Bool, FeedOptions.IsEmpty { o with IgnoreHTTPCache := some b } = false) ∧
    (∀ b : Bool, FeedOptions.IsEmpty { o with FetchViaProxy := some b } = false) ∧
    (∀ b : Bool,
      FeedOptions.IsEmpty { o with AllowSelfSignedCertificates := some b } = false) ∧
    (∀ b : Bool, FeedOptions.IsEmpty { o with DisableHTTP2 := some b } = false) ∧
    (∀ v : String, FeedOptions.IsEmpty { o with ScraperRules := some v } = false) ∧
    (∀ v : String, FeedOptions.IsEmpty { o with RewriteRules := some v } = false) ∧
    (∀ v : String, FeedOptions.IsEmpty { o with BlocklistRules := some v } = false) ∧
    (∀ v : String, FeedOptions.IsEmpty { o with KeeplistRules := some v } = false) ∧
    (∀ b : Bool, FeedOptions.IsEmpty { o with HideGlobally := some b } = false) := by
  refine ⟨?_, ?_, ?_, ?_, ?_, ?_, ?_, ?_, ?_, ?_, ?_, ?_, ?_, ?_, ?_, ?_⟩
  · rw [← isEmpty_eq_false_iff]
    simp
  all_goals
    intro x
    simp [FeedOptions.IsEmpty]

/-- C12 (category move): for local = `{A: [u]}` and remote = `{B: [u]}` with `A ≠ B` the
result is DeleteFeed(B, u), DeleteCategory(B), CreateCategory(A), CreateFeed(A, u, local
options), with no UpdateFeed; in general a URL that is in the remote category `B` and not in
the local category `B` (in neither of its maps), and in the local category `A` and not in the
remote category `A`, yields that delete and that create and no update for `(A, u)` or
`(B, u)`. -/
theorem C12_category_move (A B u : String) (o ro : FeedOptions) (loc remote : State) :
    (A ≠ B →
      CalculateDiff (singleFeedState A u o) (singleFeedState B u ro) =
        ([Action.deleteFeed B u, Action.deleteCategory B, Action.createCategory A,
          Action.createFeed A u o], none)) ∧
    (remote.HasURL B u → loc.FeedExists u B = false →
      (∀ o' : FeedOptions, ¬ loc.HasFeed B { URL := u, Options := o' }) →
      loc.HasFeed A { URL := u, Options := o } → remote.FeedExists u A = false →
        Action.deleteFeed B u ∈ (CalculateDiff loc remote).1 ∧
        Action.createFeed A u o ∈ (CalculateDiff loc remote).1 ∧
        ∀ o' : FeedOptions, Action.updateFeed A u o' ∉ (CalculateDiff loc remote).1 ∧
          Action.updateFeed B u o' ∉ (CalculateDiff loc remote).1) := by
  constructor
  · intro h
    have h1 : (B == A) = false := by simpa using (Ne.symm h)
    have h2 : (A == B) = false := by simpa using h
    simp [CalculateDiff, sortActions, appendedActions, deleteFeedActions,
      deleteCategoryActions, createCategoryActions, createFeedActions, updateFeedActions,
      singleFeedState, State.FeedExists, State.CategoryExists, GoMap.get?, List.lookup,
      State.GetFeedsByCategory, GoMap.len, State.GetFeedOptions, findFeedOptionsInCategories,
      findFeedOptions, h1, h2, Action.deleteFeed, Action.deleteCategory,
      Action.createCategory, Action.createFeed, ActionSorter.Less, actionPriority]
  · intro hRB hLB hLB' hLA hRA
    refine ⟨(deleteFeed_mem_iff loc remote B u).2 ⟨hRB, hLB⟩,
      (createFeed_mem_iff loc remote A u o).2 ⟨hLA, hRA⟩, fun o' => ⟨?_, ?_⟩⟩
    · intro h
      have hex := ((updateFeed_mem_iff loc remote A u o').1 h).2.1
      rw [hRA] at hex
      cases hex
    · intro h
      exact hLB' o' ((updateFeed_mem_iff loc remote B u o').1 h).1

/-- Witness of C12: the local state holds "http://x" under "News", the remote state under
"Tech". -/
theorem C12_category_move_witness :
    CalculateDiff (singleFeedState "News" "http://x" {}) (singleFeedState "Tech" "http://x" {}) =
      ([Action.deleteFeed "Tech" "http://x", Action.deleteCategory "Tech",
        Action.createCategory "News", Action.createFeed "News" "http://x" {}], none) ∧
    Action.deleteFeed "Tech" "http://x" ∈ (CalculateDiff newsState techPlainState).1 ∧
    Action.createFeed "News" "http://x" {} ∈ (CalculateDiff newsState techPlainState).1 :=
  have h := C12_category_move "News" "Tech" "http://x" {} {} newsState techPlainState
  have h2 := h.2 ⟨["http://x"], by decide, by decide⟩ (by decide)
    (by
      rintro o' ⟨feeds, hget, hmem⟩
      have hg : newsState.GetFeedsByCategory.get? "Tech" = some [] := by decide
      rw [hg] at hget
      cases hget
      cases hmem)
    ⟨[{ URL := "http://x" }], by decide, by decide⟩ (by decide)
  ⟨h.1 (by decide), h2.1, h2.2.1⟩

/-- C13 (partial-option update): for a local feed `u` in category `c` whose option set sets
only `crawler=true` and a remote state holding `u` in `c` with `crawler=false` and
`disabled=true`, the result is exactly one action, the UpdateFeed for `(c, u)` whose option
set has `crawler=true` and every other attribute, `disabled` included, unset; and in any
pair of states with such a local feed and such remote options, that UpdateFeed is in the
result. -/
theorem C13_partial_option_update (c u : String) :
    CalculateDiff (singleFeedState c u crawlerOn) (singleFeedState c u crawlerOffDisabled) =
      ([{ Typ := .UpdateFeed, CategoryTitle := c, FeedURL := u,
          FeedOptions := { Crawler := some true } }], none) ∧
    (∀ loc remote : State, loc.HasFeed c { URL := u, Options := crawlerOn } →
      remote.FeedExists u c = true → remote.GetFeedOptions u = crawlerOffDisabled →
        Action.updateFeed c u { Crawler := some true } ∈ (CalculateDiff loc remote).1) := by
  constructor
  · simp [CalculateDiff, appendedActions, deleteFeedActions, deleteCategoryActions,
      createCategoryActions, createFeedActions, updateFeedActions, singleFeedState,
      State.FeedExists, State.CategoryExists, GoMap.get?, List.lookup,
      State.GetFeedsByCategory, GoMap.len, State.GetFeedOptions, findFeedOptionsInCategories,
      findFeedOptions, sortActions, crawlerOn, crawlerOffDisabled, needsUpdate,
      FeedOptions.IsEmpty, FeedOptions.Equal, boolPtrEqual]
  · intro loc remote hfeed hex hopts
    refine (updateFeed_mem_iff loc remote c u crawlerOn).2 ⟨hfeed, hex, ?_⟩
    rw [hopts]
    decide

/-- Witness of C13: the local feed "http://x" under "Tech" sets `crawler=true`, the remote
feed has `crawler=false` and `disabled=true`. -/
theorem C13_partial_option_update_witness :
    Action.updateFeed "Tech" "http://x" { Crawler := some true } ∈
      (CalculateDiff techCrawlerState
        (singleFeedState "Tech" "http://x" crawlerOffDisabled)).1 :=
  (C13_partial_option_update "Tech" "http://x").2 techCrawlerState
    (singleFeedState "Tech" "http://x" crawlerOffDisabled)
    ⟨[{ URL := "http://x", Options := crawlerOn }], by decide, by decide⟩ (by decide)
    (by decide)

/-- C14 (creation scenario): for local = `{"Tech": ["http://x"]}` without options and a
remote state without categories, `CalculateDiff` returns the list CreateCategory("Tech"),
CreateFeed("Tech", "http://x", empty options), in that order, with a nil error; the same
holds when the local state is given by its URL map alone. -/
theorem C14_creation_scenario :
    CalculateDiff techPlainState emptyState =
      ([Action.createCategory "Tech", Action.createFeed "Tech" "http://x" {}], none) ∧
    CalculateDiff techURLOnlyState emptyState =
      ([Action.createCategory "Tech", Action.createFeed "Tech" "http://x" {}], none) :=
  ⟨by decide, by decide⟩

/-- C15 (deletion scenario): for local = `{"Tech": []}` and remote =
`{"Tech": ["http://x"]}`, whatever the options of the remote feed, `CalculateDiff` returns
the one-element list DeleteFeed("Tech", "http://x"), so no DeleteCategory("Tech"); the same
holds when the local state is given by its URL map alone. -/
theorem C15_deletion_scenario (ro : FeedOptions) :
    CalculateDiff techEmptyState (singleFeedState "Tech" "http://x" ro) =
      ([Action.deleteFeed "Tech" "http://x"], none) ∧
    CalculateDiff techEmptyURLOnlyState (singleFeedState "Tech" "http://x" ro) =
      ([Action.deleteFeed "Tech" "http://x"], none) ∧
    Action.deleteCategory "Tech" ∉
      (CalculateDiff techEmptyState (singleFeedState "Tech" "http://x" ro)).1 := by
  have h1 : CalculateDiff techEmptyState (singleFeedState "Tech" "http://x" ro) =
      ([Action.deleteFeed "Tech" "http://x"], none) := by
    simp [CalculateDiff, appendedActions, deleteFeedActions, deleteCategoryActions,
      createCategoryActions, createFeedActions, updateFeedActions, singleFeedState,
      techEmptyState, State.FeedExists, State.CategoryExists, GoMap.get?, List.lookup,
      State.GetFeedsByCategory, GoMap.len, sortActions, Action.deleteFeed]
  refine ⟨h1, ?_, ?_⟩
  · simp [CalculateDiff, appendedActions, deleteFeedActions, deleteCategoryActions,
      createCategoryActions, createFeedActions, updateFeedActions, singleFeedState,
      techEmptyURLOnlyState, State.FeedExists, State.CategoryExists, GoMap.get?, List.lookup,
      State.GetFeedsByCategory, GoMap.len, sortActions, Action.deleteFeed, feedsOfURLs]
  · rw [h1]
    decide

/-- C17 (feed options lookup): for a state whose feed URLs are unique across all categories,
`GetFeedOptions(u)` returns the option set of the feed with URL `u` when
`FeedsByCategoryTitle` holds such a feed in some category, and the empty option set, with no
attribute set, when no feed has the URL `u`. -/
theorem C17_GetFeedOptions (s : State) (hu : s.UniqueURLs) (u : String) :
    (∀ (c : String) (feeds : List Feed) (f : Feed),
      (c, feeds) ∈ s.FeedsByCategoryTitle.entries → f ∈ feeds → f.URL = u →
        s.GetFeedOptions u = f.Options) ∧
    ((∀ (c : String) (feeds : List Feed) (f : Feed),
      (c, feeds) ∈ s.FeedsByCategoryTitle.entries → f ∈ feeds → f.URL ≠ u) →
        s.GetFeedOptions u = {} ∧ (s.GetFeedOptions u).IsEmpty = true) := by
  constructor
  · intro c feeds f he hf hurl
    rw [← hurl]
    exact GetFeedOptions_of_mem s hu f ((mem_allFeeds s f).2 ⟨c, feeds, he, hf⟩)
  · intro hno
    have h : s.GetFeedOptions u = {} := by
      apply GetFeedOptions_of_not_mem
      intro f hf
      obtain ⟨c, feeds, he, hmem⟩ := (mem_allFeeds s f).1 hf
      exact hno c feeds f he hmem
    rw [h]
    exact ⟨rfl, rfl⟩

/-- Witness of C17: in the state with the feed "http://x" under "Tech" with `crawler=true`,
the lookup of "http://x" gives `crawler=true`. -/
theorem C17_GetFeedOptions_witness :
    techCrawlerState.UniqueURLs ∧ techCrawlerState.GetFeedOptions "http://x" = crawlerOn :=
  ⟨by decide,
    (C17_GetFeedOptions techCrawlerState (by decide) "http://x").1 "Tech"
      [{ URL := "http://x", Options := crawlerOn }] { URL := "http://x", Options := crawlerOn }
      (by decide) (by decide) rfl⟩

/-- C16, as stated, fails: the remote state holds the URL "u" under "A" with `crawler=true`
and under "B" without options; enumerated "B" first, `GetFeedOptions("u")` is empty and the
local feed gets an UpdateFeed, enumerated "A" first it gets none. -/
theorem C16_counterexample :
    duplicateURLState.SameMaps duplicateURLStateAB ∧
    CalculateDiff (singleFeedState "A" "u" crawlerOn) duplicateURLState ≠
      CalculateDiff (singleFeedState "A" "u" crawlerOn) duplicateURLStateAB := by
  decide

/-- C16 (determinism), amended: when the feed URLs of the remote state are unique across
categories, the ordered list returned by `CalculateDiff` is the same whatever order the maps
of the two states are enumerated in, and it is ordered by action type, then category title,
then feed URL. -/
theorem C16_determinism (loc loc' remote remote' : State) (hl : loc.SameMaps loc')
    (hr : remote.SameMaps remote') (hu : remote.UniqueURLs) :
    CalculateDiff loc remote = CalculateDiff loc' remote' ∧
    (CalculateDiff loc remote).1.Pairwise (fun a b => a.sortKey ≤ b.sortKey) ∧
    (CalculateDiff loc remote).1.Pairwise (fun a b => ActionSorter.Less b a = false) :=
  ⟨CalculateDiff_congr hl hr hu, sortActions_sortKey _,
    List.sorted_insertionSort (fun a b : Action => ActionSorter.Less b a = false) _⟩

/-- Witness of C16: the local state with the categories "News" and "Tech", enumerated in
both orders, against the remote state without categories. -/
theorem C16_determinism_witness :
    newsState.SameMaps newsStateSwapped ∧
    CalculateDiff newsState emptyState = CalculateDiff newsStateSwapped emptyState :=
  ⟨by decide,
    (C16_determinism newsState newsStateSwapped emptyState emptyState (by decide) (by decide)
      (by decide)).1⟩

/-- C18, as stated, fails: in the declaration with one URL twice under "Tech" and an object
entry without a url, a feed URL occurs more than once, and `Parse` fails at the decoding,
before the validation, with the error "unmarshalling data: feed entry must have a url
field", whose message does not contain "duplicate". -/
theorem C18_counterexample :
    ¬ duplicateAndMissingURLDecl.urls.Nodup ∧
    Parse duplicateAndMissingURLDecl =
      .error "unmarshalling data: feed entry must have a url field" ∧
    ¬ ∃ msg, Parse duplicateAndMissingURLDecl = .error msg ∧ Mentions msg "duplicate" := by
  have hparse := Parse_missingURL duplicateAndMissingURLDecl (by decide)
  refine ⟨by decide, hparse, ?_⟩
  rintro ⟨msg, hmsg, hmentions⟩
  rw [hparse] at hmsg
  cases hmsg
  exact not_mentions_duplicate_wrapped hmentions

/-- C18 (duplicate detection), amended: `Parse` fails with an error whose message contains
"duplicate" if and only if every entry of the declaration decodes (it is a plain string or
an object with a non-empty url) and some feed URL occurs more than once in the declaration,
in two categories or twice in one; and every state that `Parse` returns has feed URLs that
are unique across all categories. -/
theorem C18_duplicate_detection (decl : Declaration) :
    ((∃ msg, Parse decl = .error msg ∧ Mentions msg "duplicate") ↔
      (decl.EntriesHaveURL ∧ ¬ decl.urls.Nodup)) ∧
    (∀ st : State, Parse decl = .ok st → st.UniqueURLs) := by
  constructor
  · constructor
    · rintro ⟨msg, hmsg, hmentions⟩
      by_cases hd : decl.EntriesHaveURL
      · refine ⟨hd, fun hn => ?_⟩
        rw [Parse_ok decl hd hn] at hmsg
        cases hmsg
      · rw [Parse_missingURL decl hd] at hmsg
        cases hmsg
        exact absurd hmentions not_mentions_duplicate_wrapped
    · rintro ⟨hd, hn⟩
      obtain ⟨u, -, hres⟩ := Parse_duplicate decl hd hn
      exact ⟨_, hres, mentions_duplicate u⟩
  · intro st hst
    by_cases hd : decl.EntriesHaveURL
    · by_cases hn : decl.urls.Nodup
      · rw [Parse_ok decl hd hn] at hst
        cases hst
        exact parsedState_uniqueURLs decl hn
      · obtain ⟨u, -, hres⟩ := Parse_duplicate decl hd hn
        rw [hres] at hst
        cases hst
    · rw [Parse_missingURL decl hd] at hst
      cases hst

/-- Witness of C18: the same URL under "Tech" and under "News", and the same URL twice
under "Tech", both make `Parse` fail with a message that contains "duplicate". -/
theorem C18_duplicate_detection_witness :
    (∃ msg, Parse duplicateAcrossDecl = .error msg ∧ Mentions msg "duplicate") ∧
    (∃ msg, Parse duplicateWithinDecl = .error msg ∧ Mentions msg "duplicate") :=
  ⟨(C18_duplicate_detection duplicateAcrossDecl).1.2 ⟨by decide, by decide⟩,
    (C18_duplicate_detection duplicateWithinDecl).1.2 ⟨by decide, by decide⟩⟩

/-- C19 (parsing a declaration): for a declaration whose entries are plain URL strings and
objects with a url, mixed, with URLs unique across the declaration, `Parse` succeeds; the
URL map of the state maps each category that holds entries to the URLs of its entries in
declared order, the feed map holds the same feeds in the same order, `GetFeedOptions(u)`
returns the options declared for `u` (none for a plain string), and the state is well
formed. -/
theorem C19_parse_declaration (decl : Declaration) (hd : decl.EntriesHaveURL)
    (hu : decl.urls.Nodup) :
    ∃ st : State, Parse decl = .ok st ∧
      (∀ (c : String) (entries : List YAMLEntry), (c, entries) ∈ decl.entries →
        entries ≠ [] →
          st.FeedURLsByCategoryTitle.get? c = some (entries.map YAMLEntry.url) ∧
          st.FeedsByCategoryTitle.get? c = some (entries.map YAMLEntry.feed)) ∧
      (∀ (c : String) (entries : List YAMLEntry) (node : YAMLEntry),
        (c, entries) ∈ decl.entries → node ∈ entries →
          st.GetFeedOptions node.url = node.options) ∧
      st.WellFormed := by
  refine ⟨_, Parse_ok decl hd hu, ?_, ?_, ?_, parsedState_uniqueURLs decl hu⟩
  · intro c entries he hne
    have hfilter : (c, entries) ∈ decl.entries.filter fun e => !e.2.isEmpty := by
      rw [List.mem_filter]
      refine ⟨he, ?_⟩
      cases entries with
      | nil => exact absurd rfl hne
      | cons x xs => rfl
    constructor
    · rw [GoMap.get?_eq_some_iff, parsedState_urls]
      exact List.mem_map.2 ⟨(c, entries), hfilter, rfl⟩
    · rw [GoMap.get?_eq_some_iff, parsedState_feeds]
      exact List.mem_map.2 ⟨(c, entries), hfilter, rfl⟩
  · intro c entries node he hnode
    have hmem : node.feed ∈ (parsedState (decl.entries.map fun e =>
        (e.1, e.2.map YAMLEntry.entry))).FeedsByCategoryTitle.entries.flatMap Prod.snd := by
      rw [parsedState_feeds, flatMap_filter_nonempty]
      exact List.mem_flatMap.2 ⟨(c, entries), he, List.mem_map_of_mem YAMLEntry.feed hnode⟩
    exact GetFeedOptions_of_mem _ (parsedState_uniqueURLs decl hu) node.feed hmem
  · unfold State.URLsProjectFeeds
    rw [parsedState_urls, parsedState_feeds, List.map_map]
    have hfun : ((fun e : String × List Feed => (e.1, e.2.map Feed.URL)) ∘
        fun e : String × List YAMLEntry => (e.1, e.2.map YAMLEntry.feed)) =
        fun e => (e.1, e.2.map YAMLEntry.url) := by
      funext e
      simp only [Function.comp_apply, List.map_map]
      rfl
    rw [hfun]

/-- Witness of C19: the declaration with a plain string entry and an object entry under
"Tech" parses, and the lookup of the object entry's URL gives its declared options. -/
theorem C19_parse_declaration_witness :
    ∃ st : State, Parse mixedDecl = .ok st ∧
      st.FeedURLsByCategoryTitle.get? "Tech" =
        some ["https://simple.com/feed.xml", "https://full.com/feed.xml"] ∧
      st.GetFeedOptions "https://full.com/feed.xml" =
        { Crawler := some true, Username := some "user", Password := some "pass" } :=
  have ⟨st, hst, hmaps, hopts, _⟩ := C19_parse_declaration mixedDecl (by decide) (by decide)
  ⟨st, hst,
    (hmaps "Tech" [.scalar "https://simple.com/feed.xml", fullEntry] (by decide)
      (by decide)).1,
    hopts "Tech" [.scalar "https://simple.com/feed.xml", fullEntry] fullEntry (by decide)
      (by decide)⟩

/-- C20 (missing url): a feed entry in object form whose `url` is absent or empty is
rejected, whatever options it sets: decoding it returns the error "feed entry must have a
url field", which mentions "url", and `Parse` of a declaration that holds such an entry
returns that error, wrapped, and no state. -/
theorem C20_missing_url (raw : rawFeedEntry) (hurl : raw.URL = "") :
    (∀ unmarshal : Unmarshaler, (∃ err, unmarshal.intoString = .error err) →
      unmarshal.intoRaw = .ok raw →
        feedEntry.UnmarshalYAML unmarshal = .error missingURLError) ∧
    feedEntry.UnmarshalYAML (YAMLEntry.mapping raw).unmarshal = .error missingURLError ∧
    Mentions missingURLError "url" ∧
    (∀ (decl : Declaration) (c : String) (entries : List YAMLEntry),
      (c, entries) ∈ decl.entries → YAMLEntry.mapping raw ∈ entries →
        Parse decl = .error (errorsWrap missingURLError "unmarshalling data") ∧
        Mentions (errorsWrap missingURLError "unmarshalling data") "url") := by
  have hnot : (YAMLEntry.mapping raw).hasURL = false := by
    simp [YAMLEntry.hasURL, hurl]
  refine ⟨?_, UnmarshalYAML_of_not_hasURL _ hnot, by unfold Mentions; decide, ?_⟩
  · rintro unmarshal ⟨err, hs⟩ hr
    simp [feedEntry.UnmarshalYAML, hs, hr, hurl]
  · intro decl c entries he hnode
    refine ⟨Parse_missingURL decl ?_, mentions_url_wrapped⟩
    intro hall
    rw [hall (c, entries) he _ hnode] at hnot
    cases hnot

/-- Witness of C20: the declaration whose only entry is `crawler: true` without a url. -/
theorem C20_missing_url_witness :
    Parse missingURLDecl = .error "unmarshalling data: feed entry must have a url field" :=
  ((C20_missing_url { Crawler := some true } rfl).2.2.2 missingURLDecl "Tech"
    [.mapping { Crawler := some true }] (by decide) (by decide)).1

/-- C21 (empty categories in a parsed state): the claim fails on the code. For the
declaration `Tech: []` the loops of `Parse` never assign the key "Tech": the returned state
has no category, `CategoryExists("Tech")` is false and `CategoryTitles()` does not list
"Tech", while `GenerateDiffState` keeps a category without feeds; so the diff of the parsed
state against the remote state with the empty category "Tech" deletes that category. -/
theorem C21_empty_category_dropped :
    ∃ st remote : State, Parse emptyTechDecl = .ok st ∧
      st.FeedURLsByCategoryTitle.entries = [] ∧
      st.CategoryExists "Tech" = false ∧ "Tech" ∉ st.CategoryTitles ∧
      GenerateDiffState [] [techCategory] = .ok remote ∧
      remote.CategoryExists "Tech" = true ∧ "Tech" ∈ remote.CategoryTitles ∧
      CalculateDiff st remote = ([Action.deleteCategory "Tech"], none) :=
  ⟨_, _, rfl, rfl, by decide, by decide, rfl, by decide, by decide, by decide⟩

/-- C22 (feeds without a category): `GenerateDiffState` returns an error, and no state, if
and only if some feed of its input has no category; the error is "feed has no category";
when every feed has a category it returns a state. -/
theorem C22_generate_error (feeds : List MinifluxFeed) (categories : List MinifluxCategory) :
    ((∃ err, GenerateDiffState feeds categories = .error err) ↔
      ∃ f ∈ feeds, f.Category = none) ∧
    ((∃ f ∈ feeds, f.Category = none) →
      GenerateDiffState feeds categories = .error "feed has no category") ∧
    ((∀ f ∈ feeds, f.Category ≠ none) →
      ∃ st : State, GenerateDiffState feeds categories = .ok st) := by
  refine ⟨⟨?_, ?_⟩, GenerateDiffState_error feeds categories, ?_⟩
  · rintro ⟨err, herr⟩
    by_contra hno
    have hall : ∀ f ∈ feeds, f.Category ≠ none := fun f hf hc => hno ⟨f, hf, hc⟩
    obtain ⟨st, hst, -⟩ := GenerateDiffState_ok feeds categories hall
    rw [hst] at herr
    cases herr
  · intro h
    exact ⟨_, GenerateDiffState_error feeds categories h⟩
  · intro hall
    obtain ⟨st, hst, -⟩ := GenerateDiffState_ok feeds categories hall
    exact ⟨st, hst⟩

/-- Witness of C22: a feed without a category after a feed with one makes
`GenerateDiffState` fail, and the feed with a category alone gives a state. -/
theorem C22_generate_error_witness :
    GenerateDiffState [plainRemoteFeed, orphanFeed] [techCategory] =
      .error "feed has no category" ∧
    ∃ st : State, GenerateDiffState [plainRemoteFeed] [techCategory] = .ok st :=
  ⟨(C22_generate_error [plainRemoteFeed, orphanFeed] [techCategory]).2.1
      ⟨orphanFeed, by decide, rfl⟩,
    (C22_generate_error [plainRemoteFeed] [techCategory]).2.2 (by decide)⟩

/-- C23 (the generated state): when every feed has a category, the state that
`GenerateDiffState` returns has as categories exactly the titles of the categories list and
the titles of the feeds' categories; it maps each title to the feeds that carry it, in input
order (a listed category without feeds to the empty list); and its URL map is, entry by
entry, the URL projection of its feed map. -/
theorem C23_generated_state (feeds : List MinifluxFeed) (categories : List MinifluxCategory)
    (hall : ∀ f ∈ feeds, f.Category ≠ none) :
    ∃ st : State, GenerateDiffState feeds categories = .ok st ∧
      (∀ t : String, st.IsCategory t ↔
        (t ∈ categories.map MinifluxCategory.Title ∨ ∃ f ∈ feeds, f.hasTitle t = true)) ∧
      (∀ t : String, st.IsCategory t →
        st.FeedsByCategoryTitle.get? t =
          some ((feeds.filter (MinifluxFeed.hasTitle t)).map MinifluxFeed.toFeed) ∧
        st.FeedURLsByCategoryTitle.get? t =
          some ((feeds.filter (MinifluxFeed.hasTitle t)).map MinifluxFeed.FeedURL)) ∧
      (∀ t : String, t ∈ categories.map MinifluxCategory.Title →
        (∀ f ∈ feeds, f.hasTitle t = false) →
          st.FeedsByCategoryTitle.get? t = some [] ∧
          st.FeedURLsByCategoryTitle.get? t = some []) ∧
      st.FeedURLsByCategoryTitle.entries =
        (st.FeedsByCategoryTitle.entries.map fun e => (e.1, e.2.map Feed.URL)) ∧
      st.URLsProjectFeeds := by
  obtain ⟨st, hst, hlock, hsome, hnone⟩ := GenerateDiffState_ok feeds categories hall
  have hcat : ∀ t : String, st.IsCategory t ↔
      (t ∈ categories.map MinifluxCategory.Title ∨ ∃ f ∈ feeds, f.hasTitle t = true) := by
    intro t
    unfold State.IsCategory
    rw [GoMap.isKey_iff_get?, hlock.get?]
    constructor
    · intro hne
      by_contra hno
      rw [hnone t hno] at hne
      exact hne rfl
    · intro ht
      rw [hsome t ht]
      simp
  have hboth : ∀ t : String,
      (t ∈ categories.map MinifluxCategory.Title ∨ ∃ f ∈ feeds, f.hasTitle t = true) →
      st.FeedsByCategoryTitle.get? t =
          some ((feeds.filter (MinifluxFeed.hasTitle t)).map MinifluxFeed.toFeed) ∧
        st.FeedURLsByCategoryTitle.get? t =
          some ((feeds.filter (MinifluxFeed.hasTitle t)).map MinifluxFeed.FeedURL) := by
    intro t ht
    refine ⟨hsome t ht, ?_⟩
    rw [hlock.get?, hsome t ht, Option.map_some', List.map_map]
    rfl
  refine ⟨st, hst, hcat, fun t ht => hboth t ((hcat t).1 ht), ?_, hlock,
    hlock.urlsProjectFeeds⟩
  intro t ht hno
  have hnil : feeds.filter (MinifluxFeed.hasTitle t) = [] := by
    apply List.filter_eq_nil_iff.2
    intro f hf
    rw [hno f hf]
    simp
  have h := hboth t (Or.inl ht)
  rw [hnil] at h
  exact h

/-- Witness of C23: one feed under "Tech" and the listed category "Tech". -/
theorem C23_generated_state_witness :
    ∃ st : State, GenerateDiffState [plainRemoteFeed] [techCategory] = .ok st ∧
      st.FeedURLsByCategoryTitle.get? "Tech" = some ["http://x"] :=
  have ⟨st, hst, hcat, hget, _⟩ :=
    C23_generated_state [plainRemoteFeed] [techCategory] (by decide)
  ⟨st, hst, (hget "Tech" ((hcat "Tech").2 (Or.inl (by decide)))).2⟩

/-- C24 (dump shaping): `buildDumpOutput` emits, for each feed of each category in order,
an object entry if and only if the feed has a non-default option (a boolean option set to
true or a string option set to a non-empty string), and otherwise the URL string of the
feed; in an object entry a boolean option is present only when it is set to true. -/
theorem C24_dump_shaping (s : State) :
    (∀ (c : String) (feeds : List Feed), (c, feeds) ∈ s.FeedsByCategoryTitle.entries →
      feeds ≠ [] → (buildDumpOutput s).get? c = some (feeds.map dumpItem)) ∧
    (∀ feed : Feed, SomeNonDefault feed.Options → dumpItem feed = .entry (dumpEntry feed)) ∧
    (∀ feed : Feed, ¬ SomeNonDefault feed.Options → dumpItem feed = .url feed.URL) ∧
    (∀ o : FeedOptions, hasNonDefaultOptions o = true ↔ SomeNonDefault o) ∧
    (∀ (ptr : Option Bool) (b : Bool),
      nonDefaultBool ptr false = some b ↔ ptr = some true ∧ b = true) ∧
    (∀ ptr : Option Bool, nonDefaultBool ptr false = none ↔ ptr = none ∨ ptr = some false) ∧
    (∀ (feed : Feed) (b : Bool),
      ((dumpEntry feed).Crawler = some b → b = true) ∧
      ((dumpEntry feed).Disabled = some b → b = true) ∧
      ((dumpEntry feed).IgnoreHTTPCache = some b → b = true) ∧
      ((dumpEntry feed).FetchViaProxy = some b → b = true) ∧
      ((dumpEntry feed).AllowSelfSignedCertificates = some b → b = true) ∧
      ((dumpEntry feed).DisableHTTP2 = some b → b = true) ∧
      ((dumpEntry feed).HideGlobally = some b → b = true)) := by
  refine ⟨buildDumpOutput_get?_nonempty s, ?_, ?_, hasNonDefaultOptions_iff,
    nonDefaultBool_eq_some, nonDefaultBool_eq_none, ?_⟩
  · intro feed h
    unfold dumpItem
    rw [if_pos ((hasNonDefaultOptions_iff _).2 h)]
  · intro feed h
    unfold dumpItem
    rw [if_neg (fun hh => h ((hasNonDefaultOptions_iff _).1 hh))]
  · intro feed b
    refine ⟨?_, ?_, ?_, ?_, ?_, ?_, ?_⟩ <;>
      exact fun h => ((nonDefaultBool_eq_some _ b).1 h).2

/-- Witness of C24: in the dump of the state with the feed "http://x" under "Tech" with
`crawler=true`, the category "Tech" holds one object entry with `crawler: true`. -/
theorem C24_dump_shaping_witness :
    (buildDumpOutput techCrawlerState).get? "Tech" =
      some [.entry { URL := "http://x", Crawler := some true }] :=
  (C24_dump_shaping techCrawlerState).1 "Tech"
    [{ URL := "http://x", Options := crawlerOn }] (by decide) (by decide)

/-- C25 (convergence against remote values): the claim fails on the code for a string
attribute set to the empty string. The remote feed has an empty username, which
`extractFeedOptions` records as unset; the local option set with `username: ""` then needs an
update, and the diff holds an UpdateFeed although the values agree; a boolean set to its
default `false` against the remote `false` needs none. -/
theorem C25_empty_string_needs_update :
    OptionsMatch emptyUsername plainRemoteFeed ∧
    needsUpdate emptyUsername (extractFeedOptions plainRemoteFeed) = true ∧
    needsUpdate crawlerOff (extractFeedOptions plainRemoteFeed) = false ∧
    ∃ remote : State, GenerateDiffState [plainRemoteFeed] [techCategory] = .ok remote ∧
      CalculateDiff (singleFeedState "Tech" "http://x" emptyUsername) remote =
        ([Action.updateFeed "Tech" "http://x" emptyUsername], none) :=
  ⟨by simp [OptionsMatch, AttrAgrees, emptyUsername, plainRemoteFeed], by decide, by decide,
    _, rfl, by decide⟩

/-- C26 (dump round trip on options): for every option set `o`, the option set that the
dump of a feed with the options `o` gives when read back as a declaration never requires an
update against `o`. -/
theorem C26_dump_round_trip (u : String) (o : FeedOptions) :
    needsUpdate (dumpItem { URL := u, Options := o }).toYAML.options o = false ∧
    needsUpdate (dumpedOptions o) o = false :=
  ⟨needsUpdate_dumped u o, needsUpdate_dumped "" o⟩

/-- C27 (dump preserves categories): the claim fails on the code. The state that
`GenerateDiffState` returns for the category "Tech" without feeds has the category "Tech";
`buildDumpOutput` assigns a key only when it appends a feed, so "Tech" is no key of the
dump; the local state rebuilt from the dump has no category, and its diff against the same
remote state deletes "Tech". -/
theorem C27_empty_category_not_dumped :
    ∃ remote loc : State, GenerateDiffState [] [techCategory] = .ok remote ∧
      remote.IsCategory "Tech" ∧
      (buildDumpOutput remote).get? "Tech" = none ∧
      (buildDumpOutput remote).entries = [] ∧
      Parse (dumpDeclaration remote) = .ok loc ∧
      Action.deleteCategory "Tech" ∈ (CalculateDiff loc remote).1 :=
  ⟨_, _, rfl, by decide, by decide, rfl, rfl, by decide⟩

end Miniflux
